import Mathlib

/-!
# Account placement in an organizational tree

A shallow embedding of the move-account resource of the Control Tower provider:

* `ops/find.go`   : `FindAccountByID`
* `ops/move.go`   : `MoveAccount`
* `aws_utils.go`  : `waitForMove`, `getOrganizationalUnits`,
  `getOrganizationalUnitsRecursive`, `findAccountOrganizationalUnit`
* `resource_move_account.go` : the create / read / update / delete callbacks

The remote control plane is an oracle that answers every call as a function of the
history of calls made so far; every call made by the code is appended to that history,
so statements such as "exactly one move command was issued" are statements about the
history. Unbounded loops and recursion take a fuel argument; running out of fuel is a
separate outcome that is never confused with a returned value.
-/

namespace ControlTower

/-! ## Remote data -/

/-- An error value handed back by the SDK: either an `awserr.Error` (which has a code)
or any other Go error. `text` is what `Error()` renders. -/
inductive RemoteError where
  | aws (code : String) (text : String)
  | plain (text : String)
  deriving DecidableEq, Repr

/-- The `organizations.Account` payload. `Id` is dereferenced unconditionally by the code,
so it is a plain string; `Status` goes through `aws.StringValue` and may be nil. -/
structure Account where
  Id : String
  Status : Option String
  deriving DecidableEq, Repr

structure DescribeAccountInput where
  AccountId : String
  deriving DecidableEq, Repr

structure DescribeAccountOutput where
  Account : Option Account
  deriving DecidableEq, Repr

structure MoveAccountInput where
  AccountId : String
  DestinationParentId : String
  SourceParentId : String
  deriving DecidableEq, Repr

structure ListAccountsForParentOutput where
  Accounts : List Account
  NextToken : Option String
  deriving DecidableEq, Repr

structure OrganizationalUnit where
  Id : String
  Name : String
  deriving DecidableEq, Repr

structure ListOrganizationalUnitsForParentOutput where
  OrganizationalUnits : List OrganizationalUnit
  NextToken : Option String
  deriving DecidableEq, Repr

structure Root where
  Id : String
  Name : String
  deriving DecidableEq, Repr

structure ListRootsOutput where
  Roots : List Root
  deriving DecidableEq, Repr

/-- Answer of a listing call: the Go pair `(output, err)` with exactly one side set. -/
inductive Reply (α : Type) where
  | fail (err : RemoteError)
  | ok (output : α)
  deriving DecidableEq, Repr

/-- One call made to the remote, together with what the remote answered. -/
inductive Event where
  | describeAccount (input : DescribeAccountInput)
      (output : Option DescribeAccountOutput) (err : Option RemoteError)
  | listAccountsForParent (parentId : String) (nextToken : Option String)
      (reply : Reply ListAccountsForParentOutput)
  | listOrganizationalUnitsForParent (parentId : String) (nextToken : Option String)
      (reply : Reply ListOrganizationalUnitsForParentOutput)
  | listRoots (reply : Reply ListRootsOutput)
  | moveAccount (input : MoveAccountInput) (err : Option RemoteError)
  deriving DecidableEq, Repr

/-- The history of calls made so far, oldest first. -/
abbrev Trace := List Event

/-- The `organizations` client. Each operation answers as a function of the history, which
covers every deterministic remote, stateful or not. `DescribeAccountWithContext` returns
the raw Go pair because the code inspects both halves. -/
structure Conn where
  DescribeAccountWithContext :
    Trace → DescribeAccountInput → Option DescribeAccountOutput × Option RemoteError
  ListAccountsForParent :
    Trace → String → Option String → Reply ListAccountsForParentOutput
  ListOrganizationalUnitsForParent :
    Trace → String → Option String → Reply ListOrganizationalUnitsForParentOutput
  ListRoots : Trace → Reply ListRootsOutput
  MoveAccount : Trace → MoveAccountInput → Option RemoteError

/-! ## Errors -/

/-- What a `retry.NotFoundError` remembers in its `LastRequest` field. -/
inductive Request where
  | describeAccount (input : DescribeAccountInput)
  | moveAccount (input : MoveAccountInput)
  deriving DecidableEq, Repr

/-- The fields of `retry.NotFoundError` that the code sets. -/
structure NotFoundError where
  LastError : Option RemoteError
  LastRequest : Option Request
  Message : String
  deriving DecidableEq, Repr

/-- A Go `error` as returned by the `ops` package: a remote error passed through, or a
`*retry.NotFoundError`. -/
inductive GoError where
  | remote (err : RemoteError)
  | notFound (err : NotFoundError)
  deriving DecidableEq, Repr

def RemoteError.Error : RemoteError → String
  | .aws code text => code ++ ": " ++ text
  | .plain text => text

/-- The rendering of `retry.NotFoundError.Error()` for an error without retries. -/
def NotFoundError.Error (e : NotFoundError) : String :=
  if e.Message ≠ "" then e.Message else "couldn't find resource"

def GoError.Error : GoError → String
  | .remote err => err.Error
  | .notFound err => err.Error

def ErrCodeAccountNotFoundException : String := "AccountNotFoundException"

def AccountStatusSuspended : String := "SUSPENDED"

/-- The helper `tfawserr.ErrCodeEquals`: true only for a non-nil `awserr.Error` whose code is
the given one. -/
def ErrCodeEquals : Option RemoteError → String → Bool
  | some (.aws code _), want => code == want
  | _, _ => false

/-- The helper `aws.StringValue`: nil reads as the empty string. -/
def StringValue : Option String → String
  | some s => s
  | none => ""

/-! ## Diagnostics -/

inductive Severity where
  | Error
  | Warning
  deriving DecidableEq, Repr

structure Diagnostic where
  Severity : Severity
  Summary : String
  deriving DecidableEq, Repr

abbrev Diagnostics := List Diagnostic

/-- `diag.Errorf` applied to an already formatted message. -/
def Errorf (msg : String) : Diagnostics := [⟨Severity.Error, msg⟩]

/-- `diag.FromErr` on a non-nil error. -/
def FromErr (err : GoError) : Diagnostics := [⟨Severity.Error, err.Error⟩]

def HasError (diags : Diagnostics) : Bool :=
  diags.any (fun d => d.Severity == Severity.Error)

/-! ## ops/find.go and ops/move.go -/

/-- `ops.FindAccountByID`. -/
def FindAccountByID (conn : Conn) (id : String) (tr : Trace) :
    Except GoError Account × Trace :=
  let input : DescribeAccountInput := ⟨id⟩
  let answer := conn.DescribeAccountWithContext tr input
  let output := answer.1
  let err := answer.2
  let tr1 := tr ++ [Event.describeAccount input output err]
  if ErrCodeEquals err ErrCodeAccountNotFoundException then
    (.error (.notFound ⟨err, some (.describeAccount input), ""⟩), tr1)
  else
    match err with
    | some e => (.error (.remote e), tr1)
    | none =>
      match output with
      | none =>
        (.error (.notFound ⟨none, some (.describeAccount input), "account not found, " ++ id⟩), tr1)
      | some out =>
        match out.Account with
        | none =>
          (.error (.notFound ⟨none, some (.describeAccount input), "account not found, " ++ id⟩),
            tr1)
        | some account =>
          if StringValue account.Status == AccountStatusSuspended then
            (.error (.notFound ⟨none, some (.describeAccount input), StringValue account.Status⟩),
              tr1)
          else
            (.ok account, tr1)

/-- `ops.MoveAccount`; `none` is the nil error. -/
def MoveAccount (conn : Conn) (accountId sourceOu destinationOu : String) (tr : Trace) :
    Option GoError × Trace :=
  match FindAccountByID conn accountId tr with
  | (.error err, tr1) => (some err, tr1)
  | (.ok account, tr1) =>
    let input : MoveAccountInput := ⟨account.Id, destinationOu, sourceOu⟩
    let err := conn.MoveAccount tr1 input
    let tr2 := tr1 ++ [Event.moveAccount input err]
    match err with
    | some _ =>
      (some (.notFound ⟨none, some (.moveAccount input), "account not found in ou, " ++ sourceOu⟩),
        tr2)
    | none => (none, tr2)

/-! ## Outcomes of code that loops -/

/-- Why a run produced no value: the fuel of the model ran out (the Go code is still
looping), or the Go code panicked. -/
inductive Stuck where
  | outOfFuel
  | panic
  deriving DecidableEq, Repr

/-- Outcome of running code that contains an unbounded loop or recursion. -/
inductive Run (α : Type) where
  | stuck (why : Stuck)
  | returned (value : α)
  deriving DecidableEq, Repr

/-! ## aws_utils.go -/

/-- `waitForMove`: the request never carries a continuation token, and the `time.Sleep`
between two polls has no effect on the values computed. -/
def waitForMove (conn : Conn) (accountId parentOu : String) :
    Nat → Trace → Run (Bool × Diagnostics) × Trace
  | 0, tr => (.stuck .outOfFuel, tr)
  | fuel + 1, tr =>
    let reply := conn.ListAccountsForParent tr parentOu none
    let tr1 := tr ++ [Event.listAccountsForParent parentOu none reply]
    match reply with
    | .fail err =>
      (.returned (false,
        Errorf ("error reading OU status of account " ++ accountId ++ ": " ++ err.Error)), tr1)
    | .ok status =>
      if status.Accounts.any (fun account => account.Id == accountId) then
        (.returned (true, []), tr1)
      else
        waitForMove conn accountId parentOu fuel tr1

/-- The `for` loop of `getOrganizationalUnits`, entered with the current `nextToken` and
`ouSlice`. -/
def getOrganizationalUnitsLoop (conn : Conn) (parentId : String) :
    Nat → Option String → List OrganizationalUnit → Trace →
      Run (Reply (List OrganizationalUnit)) × Trace
  | 0, _, _, tr => (.stuck .outOfFuel, tr)
  | fuel + 1, nextToken, ouSlice, tr =>
    let reply := conn.ListOrganizationalUnitsForParent tr parentId nextToken
    let tr1 := tr ++ [Event.listOrganizationalUnitsForParent parentId nextToken reply]
    match reply with
    | .fail err => (.returned (.fail err), tr1)
    | .ok OUs =>
      let ouSlice1 := ouSlice ++ OUs.OrganizationalUnits
      match OUs.NextToken with
      | none => (.returned (.ok ouSlice1), tr1)
      | some token => getOrganizationalUnitsLoop conn parentId fuel (some token) ouSlice1 tr1

/-- `getOrganizationalUnits`. -/
def getOrganizationalUnits (conn : Conn) (fuel : Nat) (OU : OrganizationalUnit) (tr : Trace) :
    Run (Reply (List OrganizationalUnit)) × Trace :=
  getOrganizationalUnitsLoop conn OU.Id fuel none [] tr

/-- The `range currentOUs` loop of `getOrganizationalUnitsRecursive`, with the recursive call
passed in as `recurse`. The error of a recursive call is discarded and its `deepOus` is then
nil; a recursive call that does not return stops the loop. -/
def expandUnits
    (recurse : OrganizationalUnit → Trace → Run (Reply (List OrganizationalUnit)) × Trace) :
    List OrganizationalUnit → List OrganizationalUnit → Trace →
      Run (List OrganizationalUnit) × Trace
  | [], ous, tr => (.returned ous, tr)
  | currentOU :: rest, ous, tr =>
    match recurse currentOU tr with
    | (.stuck why, tr1) => (.stuck why, tr1)
    | (.returned (.fail _), tr1) => expandUnits recurse rest (ous ++ [currentOU]) tr1
    | (.returned (.ok deepOus), tr1) =>
      expandUnits recurse rest (ous ++ [currentOU] ++ deepOus) tr1

/-- `getOrganizationalUnitsRecursive`. -/
def getOrganizationalUnitsRecursive (conn : Conn) :
    Nat → OrganizationalUnit → Trace → Run (Reply (List OrganizationalUnit)) × Trace
  | 0, _, tr => (.stuck .outOfFuel, tr)
  | fuel + 1, ou, tr =>
    match getOrganizationalUnits conn fuel ou tr with
    | (.stuck why, tr1) => (.stuck why, tr1)
    | (.returned (.fail err), tr1) => (.returned (.fail err), tr1)
    | (.returned (.ok currentOUs), tr1) =>
      match expandUnits (getOrganizationalUnitsRecursive conn fuel) currentOUs [] tr1 with
      | (.stuck why, tr2) => (.stuck why, tr2)
      | (.returned ous, tr2) => (.returned (.ok ous), tr2)

/-- The Go map `ous`: at most one entry per key, `ous[k] = v` overwrites. -/
abbrev Catalog := List (String × String)

/-- The assignment `ous[k] = v`. -/
def Catalog.set : Catalog → String → String → Catalog
  | [], k, v => [(k, v)]
  | (k1, v1) :: rest, k, v =>
    if k1 = k then (k, v) :: rest else (k1, v1) :: Catalog.set rest k v

/-- The paging loop over the accounts of one unit in `findAccountOrganizationalUnit`:
`ok true` when the account is on a page, `ok false` when the listing is exhausted. -/
def searchAccountPages (conn : Conn) (accountId ou : String) :
    Nat → Option String → Trace → Run (Reply Bool) × Trace
  | 0, _, tr => (.stuck .outOfFuel, tr)
  | fuel + 1, nextToken, tr =>
    let reply := conn.ListAccountsForParent tr ou nextToken
    let tr1 := tr ++ [Event.listAccountsForParent ou nextToken reply]
    match reply with
    | .fail err => (.returned (.fail err), tr1)
    | .ok aOutput =>
      if aOutput.Accounts.any (fun account => accountId == account.Id) then
        (.returned (.ok true), tr1)
      else
        match aOutput.NextToken with
        | none => (.returned (.ok false), tr1)
        | some token => searchAccountPages conn accountId ou fuel (some token) tr1

/-- The `range ous` loop of `findAccountOrganizationalUnit` over the entries in the order
in which the map hands them out, followed by the final `return`. -/
def searchUnits (conn : Conn) (accountId : String) (fuel : Nat) :
    List (String × String) → Trace → Run (String × String × Diagnostics) × Trace
  | [], tr => (.returned ("", "", Errorf ("no OU found for account " ++ accountId ++ ".")), tr)
  | (ou, name) :: rest, tr =>
    match searchAccountPages conn accountId ou fuel none tr with
    | (.stuck why, tr1) => (.stuck why, tr1)
    | (.returned (.fail err), tr1) =>
      (.returned ("", "",
        Errorf ("error reading accounts under OU " ++ ou ++ ": " ++ err.Error)), tr1)
    | (.returned (.ok true), tr1) => (.returned (ou, name, []), tr1)
    | (.returned (.ok false), tr1) => searchUnits conn accountId fuel rest tr1

/-- `findAccountOrganizationalUnit`. Go does not fix the iteration order of a map, so the
order is the parameter `order`, which is applied to the finished catalog. Indexing
`status.Roots[0]` on an empty list panics. -/
def findAccountOrganizationalUnit (conn : Conn) (order : Catalog → List (String × String))
    (accountId : String) (fuel : Nat) (tr : Trace) :
    Run (String × String × Diagnostics) × Trace :=
  let reply := conn.ListRoots tr
  let tr1 := tr ++ [Event.listRoots reply]
  match reply with
  | .fail err =>
    (.returned ("", "",
      Errorf ("error reading OU root account " ++ accountId ++ ": " ++ err.Error)), tr1)
  | .ok status =>
    match status.Roots with
    | [] => (.stuck .panic, tr1)
    | root :: _ =>
      let ous0 : Catalog := Catalog.set [] root.Id root.Name
      let ou : OrganizationalUnit := ⟨root.Id, root.Name⟩
      match getOrganizationalUnitsRecursive conn fuel ou tr1 with
      | (.stuck why, tr2) => (.stuck why, tr2)
      | (.returned (.fail err), tr2) => (.returned ("", "", FromErr (.remote err)), tr2)
      | (.returned (.ok ouSlice), tr2) =>
        let ous := ouSlice.foldl (fun m u => Catalog.set m u.Id u.Name) ous0
        searchUnits conn accountId fuel (order ous) tr2

/-! ## resource_move_account.go -/

/-- The `schema.ResourceData` of a move declaration: the resource id, the three declared
fields, and the two framework flags the callbacks consult. -/
structure ResourceData where
  Id : String
  account_id : String
  source_ou : String
  destination_ou : String
  IsNewResource : Bool
  HasChanges : Bool
  deriving DecidableEq, Repr

/-- The Go `err` of a `(value, err)` result. -/
def errOf {α : Type} : Except GoError α → Option GoError
  | .error err => some err
  | .ok _ => none

/-- Modelled from the spec: the provider helper `NotFound(err)`, which the resource callbacks
call and whose definition is in a file that is not part of the sources at hand. The spec
makes NotFound a typed result "always distinguishable from generic failure", so the helper
is true exactly on a `retry.NotFoundError`. -/
def NotFound : Option GoError → Bool
  | some (.notFound _) => true
  | _ => false

/-- `resourceMoveAccountRead`. -/
def resourceMoveAccountRead (conn : Conn) (d : ResourceData) (tr : Trace) :
    (Diagnostics × ResourceData) × Trace :=
  match FindAccountByID conn d.account_id tr with
  | (found, tr1) =>
    if !d.IsNewResource && NotFound (errOf found) then
      (([], { d with Id := "" }), tr1)
    else
      match found with
      | .error err =>
        (([⟨Severity.Error,
            "reading AWS Organizations Account (" ++ d.Id ++ "): " ++ err.Error⟩], d), tr1)
      | .ok account =>
        let accountId := account.Id
        let sourceOu := d.source_ou
        let destinationOu := d.destination_ou
        (([], { d with
                  account_id := accountId
                  source_ou := sourceOu
                  destination_ou := destinationOu
                  Id := accountId ++ "/" ++ sourceOu ++ "/" ++ destinationOu }), tr1)

/-- `resourceMoveAccountCreate`. -/
def resourceMoveAccountCreate (conn : Conn) (fuel : Nat) (d : ResourceData) (tr : Trace) :
    Run (Diagnostics × ResourceData) × Trace :=
  let accountId := d.account_id
  let sourceOu := d.source_ou
  let destinationOu := d.destination_ou
  match MoveAccount conn accountId sourceOu destinationOu tr with
  | (some err, tr1) => (.returned (FromErr err, d), tr1)
  | (none, tr1) =>
    match waitForMove conn accountId destinationOu fuel tr1 with
    | (.stuck why, tr2) => (.stuck why, tr2)
    | (.returned (result, diags), tr2) =>
      if HasError diags then (.returned (diags, d), tr2)
      else if !result then
        (.returned
          (Errorf ("unable to move account " ++ accountId ++ " to " ++ destinationOu), d), tr2)
      else
        match resourceMoveAccountRead conn d tr2 with
        | (out, tr3) => (.returned out, tr3)

/-- `resourceMoveAccountUpdate`. -/
def resourceMoveAccountUpdate (conn : Conn) (fuel : Nat) (d : ResourceData) (tr : Trace) :
    Run (Diagnostics × ResourceData) × Trace :=
  if d.HasChanges then
    match FindAccountByID conn d.account_id tr with
    | (found, tr1) =>
      if !d.IsNewResource && NotFound (errOf found) then
        (.returned ([], { d with Id := "" }), tr1)
      else
        match found with
        | .error err =>
          (.returned ([⟨Severity.Error,
              "reading AWS Organizations Account (" ++ d.Id ++ "): " ++ err.Error⟩], d), tr1)
        | .ok _ =>
          let accountId := d.account_id
          let sourceOu := d.source_ou
          let destinationOu := d.destination_ou
          match MoveAccount conn accountId sourceOu destinationOu tr1 with
          | (some err, tr2) =>
            (.returned
              (Errorf ("error updating account move for " ++ accountId ++ ": " ++ err.Error), d),
              tr2)
          | (none, tr2) =>
            match waitForMove conn accountId destinationOu fuel tr2 with
            | (.stuck why, tr3) => (.stuck why, tr3)
            | (.returned (result, diags), tr3) =>
              if HasError diags then (.returned (diags, d), tr3)
              else if !result then
                (.returned
                  (Errorf ("unable to move account " ++ accountId ++ " to " ++ destinationOu), d),
                  tr3)
              else
                match resourceMoveAccountRead conn d tr3 with
                | (out, tr4) => (.returned out, tr4)
  else
    match resourceMoveAccountRead conn d tr with
    | (out, tr1) => (.returned out, tr1)

/-- `resourceMoveAccountDelete`; the callback returns diagnostics only. -/
def resourceMoveAccountDelete (conn : Conn) (fuel : Nat) (d : ResourceData) (tr : Trace) :
    Run Diagnostics × Trace :=
  let accountId := d.account_id
  let sourceOu := d.source_ou
  let destinationOu := d.destination_ou
  match waitForMove conn accountId destinationOu fuel tr with
  | (.stuck why, tr1) => (.stuck why, tr1)
  | (.returned (result, diags), tr1) =>
    if HasError diags then (.returned diags, tr1)
    else if !result then
      (.returned (Errorf ("account " ++ accountId ++ " not in correct ou, " ++ destinationOu)),
        tr1)
    else
      match MoveAccount conn accountId destinationOu sourceOu tr1 with
      | (some err, tr2) =>
        (.returned
          (Errorf ("error reverting account move for " ++ accountId ++ ": " ++ err.Error)), tr2)
      | (none, tr2) =>
        match waitForMove conn accountId sourceOu fuel tr2 with
        | (.stuck why, tr3) => (.stuck why, tr3)
        | (.returned (result2, diags2), tr3) =>
          if HasError diags2 then (.returned diags2, tr3)
          else if !result2 then
            (.returned
              (Errorf ("unable to move account " ++ accountId ++ " to " ++ destinationOu)), tr3)
          else (.returned [], tr3)

/-! ## Organization trees, for stating what the walker and the resolver compute -/

/-- A paginated listing as the remote hands it out: a final page (no continuation token),
a page followed by more under a continuation token, or a call that fails. -/
inductive Pages (α : Type) where
  | last (items : List α)
  | more (items : List α) (token : String) (rest : Pages α)
  | fail (err : RemoteError)

/-- A finite organization tree. Every unit carries its paginated direct membership and its
paginated listing of child units, either of which may end in a failing call. -/
inductive OUTree where
  | node (ou : OrganizationalUnit) (accounts : Pages Account) (children : Pages OUTree)

/-- Everything listed on the pages, in order. -/
def Pages.items {α : Type} : Pages α → List α
  | .last items => items
  | .more items _ rest => items ++ rest.items
  | .fail _ => []

/-- The error of the failing call of a listing, if it has one. -/
def Pages.failure {α : Type} : Pages α → Option RemoteError
  | .last _ => none
  | .more _ _ rest => rest.failure
  | .fail err => some err

/-- Number of calls needed to go through the listing. -/
def Pages.calls {α : Type} : Pages α → Nat
  | .last _ => 1
  | .more _ _ rest => rest.calls + 1
  | .fail _ => 1

def OUTree.ou : OUTree → OrganizationalUnit
  | .node ou _ _ => ou

def OUTree.accounts : OUTree → Pages Account
  | .node _ accounts _ => accounts

def OUTree.children : OUTree → Pages OUTree
  | .node _ _ children => children

mutual
/-- The units below `t` that a walk reaches when a unit whose own child listing fails
contributes nothing below itself: each child, followed by what is reached below it. -/
def OUTree.descend : OUTree → List OrganizationalUnit
  | .node _ _ children =>
    match children.failure with
    | some _ => []
    | none => OUTree.descendPages children
/-- The walk below every unit listed on the pages. -/
def OUTree.descendPages : Pages OUTree → List OrganizationalUnit
  | .last items => OUTree.descendList items
  | .more items _ rest => OUTree.descendList items ++ OUTree.descendPages rest
  | .fail _ => []
/-- The walk below every unit of a list. -/
def OUTree.descendList : List OUTree → List OrganizationalUnit
  | [] => []
  | t :: ts => (t.ou :: t.descend) ++ OUTree.descendList ts
end

mutual
/-- The unit `t` and all of its descendants, whatever fails. -/
def OUTree.nodes : OUTree → List OUTree
  | .node ou accounts children => .node ou accounts children :: OUTree.nodesPages children
/-- All units on the pages with all of their descendants. -/
def OUTree.nodesPages : Pages OUTree → List OUTree
  | .last items => OUTree.nodesList items
  | .more items _ rest => OUTree.nodesList items ++ OUTree.nodesPages rest
  | .fail _ => []
/-- All units of a list with all of their descendants. -/
def OUTree.nodesList : List OUTree → List OUTree
  | [] => []
  | t :: ts => t.nodes ++ OUTree.nodesList ts
end

mutual
/-- An upper bound on the fuel a walk of `t` needs. -/
def OUTree.cost : OUTree → Nat
  | .node _ _ children => OUTree.costPages children + 1
def OUTree.costPages : Pages OUTree → Nat
  | .last items => OUTree.costList items + 1
  | .more items _ rest => OUTree.costList items + OUTree.costPages rest + 1
  | .fail _ => 1
def OUTree.costList : List OUTree → Nat
  | [] => 0
  | t :: ts => t.cost + OUTree.costList ts
end

/-- An upper bound on the fuel a resolution over `t` needs: the walk, and the longest
membership listing. -/
def OUTree.resolveCost (t : OUTree) : Nat :=
  t.cost + (t.nodes.map (fun n => n.accounts.calls)).sum

/-- The remote answers the child listing of `parentId`, entered with `token`, page by page
as `pages` says, whatever the history. -/
def ServesUnitPages (conn : Conn) (parentId : String) :
    Option String → Pages OUTree → Prop
  | token, .last items =>
    ∀ tr, conn.ListOrganizationalUnitsForParent tr parentId token
      = .ok ⟨items.map OUTree.ou, none⟩
  | token, .more items next rest =>
    (∀ tr, conn.ListOrganizationalUnitsForParent tr parentId token
      = .ok ⟨items.map OUTree.ou, some next⟩)
    ∧ ServesUnitPages conn parentId (some next) rest
  | token, .fail err =>
    ∀ tr, conn.ListOrganizationalUnitsForParent tr parentId token = .fail err

/-- The remote answers the membership listing of `parentId`, entered with `token`, page by
page as `pages` says, whatever the history. -/
def ServesAccountPages (conn : Conn) (parentId : String) :
    Option String → Pages Account → Prop
  | token, .last items =>
    ∀ tr, conn.ListAccountsForParent tr parentId token = .ok ⟨items, none⟩
  | token, .more items next rest =>
    (∀ tr, conn.ListAccountsForParent tr parentId token = .ok ⟨items, some next⟩)
    ∧ ServesAccountPages conn parentId (some next) rest
  | token, .fail err =>
    ∀ tr, conn.ListAccountsForParent tr parentId token = .fail err

/-- The remote serves the child listings of every unit of the tree. -/
def ServesUnits (conn : Conn) (t : OUTree) : Prop :=
  ∀ n ∈ t.nodes, ServesUnitPages conn n.ou.Id none n.children

/-- The remote serves the membership listings of every unit of the tree. -/
def ServesMembers (conn : Conn) (t : OUTree) : Prop :=
  ∀ n ∈ t.nodes, ServesAccountPages conn n.ou.Id none n.accounts

/-- No listing call fails anywhere in the tree. -/
def NoListingFails (t : OUTree) : Prop :=
  ∀ n ∈ t.nodes, n.children.failure = none ∧ n.accounts.failure = none

/-- The account is in the direct membership of the unit, on whichever page. -/
def OUTree.hasMember (t : OUTree) (accountId : String) : Prop :=
  accountId ∈ t.accounts.items.map Account.Id

instance (t : OUTree) (accountId : String) : Decidable (t.hasMember accountId) :=
  inferInstanceAs (Decidable (accountId ∈ t.accounts.items.map Account.Id))

/-- What `getOrganizationalUnitsRecursive` is expected to return on the root of `t`. -/
def OUTree.walk (t : OUTree) : Reply (List OrganizationalUnit) :=
  match t.children.failure with
  | some err => .fail err
  | none => .ok t.descend

/-! ## Reading a history -/

/-- The request of a move command, for an event that is one. -/
def Event.moveInput : Event → Option MoveAccountInput
  | .moveAccount input _ => some input
  | _ => none

/-- The move commands issued in a stretch of history, in order. -/
def movesOf (evs : Trace) : List MoveAccountInput :=
  evs.filterMap Event.moveInput

/-- Whether the event is a membership listing, as a confirmation poll issues them. -/
def Event.isPoll : Event → Bool
  | .listAccountsForParent _ _ _ => true
  | _ => false

/-! ## Example remotes -/

/-- The destination of the last move of a history that the remote accepted, if there is
one. -/
def lastAcceptedMove : Trace → Option String
  | [] => none
  | ev :: rest =>
    match lastAcceptedMove rest with
    | some p => some p
    | none =>
      match ev with
      | .moveAccount input none => some input.DestinationParentId
      | _ => none

/-- Where the account of the sample organization sits after the calls of a history: it
starts in `ou-root-aaa` and follows every move the remote accepted. -/
def sampleParent (tr : Trace) : String :=
  match lastAcceptedMove tr with
  | some p => p
  | none => "ou-root-aaa"

/-- A small live organization: root `r-root` with the units `ou-root-aaa`, `ou-root-bbb` and
`ou-root-ccc`, and the single active account `111111111111`, which the remote moves when
asked to move it out of the unit it is in. -/
def sampleConn : Conn where
  DescribeAccountWithContext := fun _ input =>
    if input.AccountId = "111111111111" then
      (some ⟨some ⟨"111111111111", some "ACTIVE"⟩⟩, none)
    else
      (none, some (.aws "AccountNotFoundException" "no such account"))
  ListAccountsForParent := fun tr parentId _ =>
    if sampleParent tr = parentId then .ok ⟨[⟨"111111111111", some "ACTIVE"⟩], none⟩
    else .ok ⟨[], none⟩
  ListOrganizationalUnitsForParent := fun _ parentId _ =>
    if parentId = "r-root" then
      .ok ⟨[⟨"ou-root-aaa", "aaa"⟩, ⟨"ou-root-bbb", "bbb"⟩, ⟨"ou-root-ccc", "ccc"⟩], none⟩
    else .ok ⟨[], none⟩
  ListRoots := fun _ => .ok ⟨[⟨"r-root", "Root"⟩]⟩
  MoveAccount := fun tr input =>
    if sampleParent tr = input.SourceParentId then none
    else some (.aws "SourceParentNotFoundException" "account is not in the source parent")

/-- The sample organization with the account suspended. -/
def suspendedConn : Conn :=
  { sampleConn with
    DescribeAccountWithContext := fun _ _ =>
      (some ⟨some ⟨"111111111111", some "SUSPENDED"⟩⟩, none) }

/-- The sample organization without the account. -/
def absentConn : Conn :=
  { sampleConn with
    DescribeAccountWithContext := fun _ _ =>
      (none, some (.aws "AccountNotFoundException" "no such account")) }

/-- The sample organization refusing every move with an access error. -/
def rejectingConn : Conn :=
  { sampleConn with
    MoveAccount := fun _ _ => some (.aws "AccessDeniedException" "not authorized to move") }

/-- The declaration of the sample move `ou-root-aaa` to `ou-root-bbb`, being created. -/
def sampleData : ResourceData :=
  { Id := "", account_id := "111111111111", source_ou := "ou-root-aaa",
    destination_ou := "ou-root-bbb", IsNewResource := true, HasChanges := false }

/-- The same declaration once persisted. -/
def storedData : ResourceData :=
  { sampleData with Id := "111111111111/ou-root-aaa/ou-root-bbb", IsNewResource := false }

/-- The calls Create makes for the sample declaration against the sample organization. -/
def sampleCreateTrace : Trace :=
  [ Event.describeAccount ⟨"111111111111"⟩ (some ⟨some ⟨"111111111111", some "ACTIVE"⟩⟩) none,
    Event.moveAccount ⟨"111111111111", "ou-root-bbb", "ou-root-aaa"⟩ none,
    Event.listAccountsForParent "ou-root-bbb" none
      (.ok ⟨[⟨"111111111111", some "ACTIVE"⟩], none⟩),
    Event.describeAccount ⟨"111111111111"⟩ (some ⟨some ⟨"111111111111", some "ACTIVE"⟩⟩) none ]

/-- The calls Delete makes for the sample declaration after that Create. -/
def sampleDeleteTrace : Trace :=
  [ Event.listAccountsForParent "ou-root-bbb" none
      (.ok ⟨[⟨"111111111111", some "ACTIVE"⟩], none⟩),
    Event.describeAccount ⟨"111111111111"⟩ (some ⟨some ⟨"111111111111", some "ACTIVE"⟩⟩) none,
    Event.moveAccount ⟨"111111111111", "ou-root-aaa", "ou-root-bbb"⟩ none,
    Event.listAccountsForParent "ou-root-aaa" none
      (.ok ⟨[⟨"111111111111", some "ACTIVE"⟩], none⟩) ]

/-- The sample organization with a membership listing that always times out. -/
def brokenListConn : Conn :=
  { sampleConn with
    ListAccountsForParent := fun _ _ _ => .fail (.plain "request timed out") }

/-- A two-level organization. Its root lists its units on two pages, the unit `ou-a1` lists its
accounts on two pages, and with `broken` set the child listing of `ou-b` fails. -/
def orgTree (broken : Bool) : OUTree :=
  .node ⟨"r-root", "Root"⟩ (.last [])
    (.more
      [ .node ⟨"ou-a", "a"⟩ (.last [])
          (.last
            [ .node ⟨"ou-a1", "a1"⟩
                (.more [⟨"222222222222", some "ACTIVE"⟩] "members-2"
                  (.last [⟨"111111111111", some "ACTIVE"⟩]))
                (.last []) ]),
        .node ⟨"ou-b", "b"⟩ (.last [])
          (if broken then .fail (.plain "throttled")
           else .last [ .node ⟨"ou-b1", "b1"⟩ (.last []) (.last []) ]) ]
      "units-2"
      (.last [ .node ⟨"ou-c", "c"⟩ (.last [⟨"333333333333", some "ACTIVE"⟩]) (.last []) ]))

/-- A remote that serves `orgTree broken`, whatever the history. -/
def orgConn (broken : Bool) : Conn where
  DescribeAccountWithContext := fun _ input =>
    (some ⟨some ⟨input.AccountId, some "ACTIVE"⟩⟩, none)
  ListAccountsForParent := fun _ parentId token =>
    if parentId = "ou-a1" then
      match token with
      | none => .ok ⟨[⟨"222222222222", some "ACTIVE"⟩], some "members-2"⟩
      | some _ => .ok ⟨[⟨"111111111111", some "ACTIVE"⟩], none⟩
    else if parentId = "ou-c" then .ok ⟨[⟨"333333333333", some "ACTIVE"⟩], none⟩
    else .ok ⟨[], none⟩
  ListOrganizationalUnitsForParent := fun _ parentId token =>
    if parentId = "r-root" then
      match token with
      | none => .ok ⟨[⟨"ou-a", "a"⟩, ⟨"ou-b", "b"⟩], some "units-2"⟩
      | some _ => .ok ⟨[⟨"ou-c", "c"⟩], none⟩
    else if parentId = "ou-a" then .ok ⟨[⟨"ou-a1", "a1"⟩], none⟩
    else if parentId = "ou-b" then
      (if broken then .fail (.plain "throttled") else .ok ⟨[⟨"ou-b1", "b1"⟩], none⟩)
    else .ok ⟨[], none⟩
  ListRoots := fun _ => .ok ⟨[⟨"r-root", "Root"⟩]⟩
  MoveAccount := fun _ _ => none

/-- A remote that answers every describe call with the account `999999999999`, whatever id
it was asked for. -/
def relabelConn : Conn :=
  { sampleConn with
    DescribeAccountWithContext := fun _ _ =>
      (some ⟨some ⟨"999999999999", some "ACTIVE"⟩⟩, none) }

/-- The example organization with every child listing failing, the error text being the
sentence the resolver uses when it finds no unit for the account `999999999999`. -/
def echoConn : Conn :=
  { orgConn false with
    ListOrganizationalUnitsForParent := fun _ _ _ =>
      .fail (.plain "no OU found for account 999999999999.") }

/-! ## Entity lookup -/

/-- C7: `FindAccountByID` maps the code `AccountNotFoundException` to a typed NotFound error,
passes every other remote error through unchanged, maps a nil output or nil account payload
to a typed NotFound error, maps status `SUSPENDED` to a typed NotFound error, and otherwise
returns the remote's account; it returns an account exactly when the call succeeded with a
non-nil account whose status is not `SUSPENDED`. -/
theorem FindAccountByID_classifies (conn : Conn) (id : String) (tr : Trace) :
    (∀ text, (conn.DescribeAccountWithContext tr ⟨id⟩).2
          = some (.aws ErrCodeAccountNotFoundException text) →
        (FindAccountByID conn id tr).1
          = .error (.notFound ⟨some (.aws ErrCodeAccountNotFoundException text),
              some (.describeAccount ⟨id⟩), ""⟩))
    ∧ (∀ e, (conn.DescribeAccountWithContext tr ⟨id⟩).2 = some e →
        (∀ text, e ≠ .aws ErrCodeAccountNotFoundException text) →
        (FindAccountByID conn id tr).1 = .error (.remote e))
    ∧ ((conn.DescribeAccountWithContext tr ⟨id⟩).2 = none →
        ((conn.DescribeAccountWithContext tr ⟨id⟩).1 = none
          ∨ (conn.DescribeAccountWithContext tr ⟨id⟩).1 = some ⟨none⟩) →
        (FindAccountByID conn id tr).1
          = .error (.notFound ⟨none, some (.describeAccount ⟨id⟩), "account not found, " ++ id⟩))
    ∧ (∀ account, (conn.DescribeAccountWithContext tr ⟨id⟩).2 = none →
        (conn.DescribeAccountWithContext tr ⟨id⟩).1 = some ⟨some account⟩ →
        account.Status = some AccountStatusSuspended →
        (FindAccountByID conn id tr).1
          = .error (.notFound ⟨none, some (.describeAccount ⟨id⟩), AccountStatusSuspended⟩))
    ∧ (∀ account, (conn.DescribeAccountWithContext tr ⟨id⟩).2 = none →
        (conn.DescribeAccountWithContext tr ⟨id⟩).1 = some ⟨some account⟩ →
        account.Status ≠ some AccountStatusSuspended →
        (FindAccountByID conn id tr).1 = .ok account)
    ∧ (∀ account, (FindAccountByID conn id tr).1 = .ok account ↔
        ((conn.DescribeAccountWithContext tr ⟨id⟩).2 = none
          ∧ (conn.DescribeAccountWithContext tr ⟨id⟩).1 = some ⟨some account⟩
          ∧ account.Status ≠ some AccountStatusSuspended)) := by
  rcases h : conn.DescribeAccountWithContext tr ⟨id⟩ with ⟨out, err⟩
  have hsusp : ∀ st : Option String,
      (StringValue st == AccountStatusSuspended) = true ↔ st = some AccountStatusSuspended := by
    intro st
    cases st with
    | none => simp [StringValue, AccountStatusSuspended]
    | some v => simp [StringValue]
  refine ⟨?_, ?_, ?_, ?_, ?_, ?_⟩
  · intro text herr
    simp only at herr
    subst herr
    simp [FindAccountByID, h, ErrCodeEquals]
  · intro e herr hne
    simp only at herr
    subst herr
    have hcode : ErrCodeEquals (some e) ErrCodeAccountNotFoundException = false := by
      cases e with
      | aws code text =>
        simp only [ErrCodeEquals, beq_eq_false_iff_ne, ne_eq]
        intro hc
        exact hne text (by rw [hc])
      | plain text => rfl
    simp [FindAccountByID, h, hcode]
  · intro herr hout
    simp only at herr hout
    subst herr
    rcases hout with hout | hout <;> subst hout <;> simp [FindAccountByID, h, ErrCodeEquals]
  · intro account herr hout hst
    simp only at herr hout
    subst herr
    subst hout
    have := (hsusp account.Status).2 hst
    simp [FindAccountByID, h, ErrCodeEquals, this, hst, StringValue]
  · intro account herr hout hst
    simp only at herr hout
    subst herr
    subst hout
    have : (StringValue account.Status == AccountStatusSuspended) = false := by
      rw [Bool.eq_false_iff]
      intro hc
      exact hst ((hsusp account.Status).1 hc)
    simp [FindAccountByID, h, ErrCodeEquals, this]
  · intro account
    simp only
    cases err with
    | some e =>
      by_cases hc : ErrCodeEquals (some e) ErrCodeAccountNotFoundException = true
      · simp [FindAccountByID, h, hc]
      · simp [FindAccountByID, h, hc]
    | none =>
      cases out with
      | none => simp [FindAccountByID, h, ErrCodeEquals]
      | some o =>
        rcases o with ⟨_ | a⟩
        · simp [FindAccountByID, h, ErrCodeEquals]
        · by_cases hs : (StringValue a.Status == AccountStatusSuspended) = true
          · have hs2 := (hsusp a.Status).1 hs
            simp only [FindAccountByID, h, ErrCodeEquals, hs]
            simp
            intro heq
            subst heq
            exact hs2
          · have hs2 : a.Status ≠ some AccountStatusSuspended :=
              fun hc => hs ((hsusp a.Status).2 hc)
            simp only [FindAccountByID, h, ErrCodeEquals, hs]
            simp
            intro heq
            subst heq
            exact hs2

theorem FindAccountByID_classifies_witness :
    (FindAccountByID suspendedConn "111111111111" []).1
        = .error (.notFound ⟨none, some (.describeAccount ⟨"111111111111"⟩), "SUSPENDED"⟩)
    ∧ (FindAccountByID absentConn "111111111111" []).1
        = .error (.notFound ⟨some (.aws "AccountNotFoundException" "no such account"),
            some (.describeAccount ⟨"111111111111"⟩), ""⟩)
    ∧ (FindAccountByID sampleConn "111111111111" []).1
        = .ok ⟨"111111111111", some "ACTIVE"⟩ :=
  ⟨(FindAccountByID_classifies suspendedConn "111111111111" []).2.2.2.1
      ⟨"111111111111", some "SUSPENDED"⟩ rfl rfl rfl,
    (FindAccountByID_classifies absentConn "111111111111" []).1 "no such account" rfl,
    (FindAccountByID_classifies sampleConn "111111111111" []).2.2.2.2.1
      ⟨"111111111111", some "ACTIVE"⟩ rfl rfl (by decide)⟩

/-- Every lookup makes exactly one describe call and appends it to the history. -/
theorem FindAccountByID_trace (conn : Conn) (id : String) (tr : Trace) :
    (FindAccountByID conn id tr).2
      = tr ++ [Event.describeAccount ⟨id⟩ (conn.DescribeAccountWithContext tr ⟨id⟩).1
          (conn.DescribeAccountWithContext tr ⟨id⟩).2] := by
  unfold FindAccountByID
  simp only
  split
  · rfl
  · split
    · rfl
    · split
      · rfl
      · split
        · rfl
        · split <;> rfl

/-! ## Read -/

/-- C3: for a persisted declaration, Read clears the id, reports no error and rewrites none of
the three fields, identically when the remote reports the account suspended and when it
reports it not found; for a new resource both failures come back as an error diagnostic and
the declaration, id included, is left as it was. -/
theorem resourceMoveAccountRead_suspended_as_absent (connS connA : Conn) (d : ResourceData)
    (trS trA : Trace) (account : Account) (outA : Option DescribeAccountOutput) (text : String)
    (hS : connS.DescribeAccountWithContext trS ⟨d.account_id⟩ = (some ⟨some account⟩, none))
    (hstatus : account.Status = some AccountStatusSuspended)
    (hA : connA.DescribeAccountWithContext trA ⟨d.account_id⟩
      = (outA, some (.aws ErrCodeAccountNotFoundException text))) :
    (d.IsNewResource = false →
      (resourceMoveAccountRead connS d trS).1 = ([], { d with Id := "" })
      ∧ (resourceMoveAccountRead connA d trA).1 = ([], { d with Id := "" })
      ∧ (resourceMoveAccountRead connS d trS).1 = (resourceMoveAccountRead connA d trA).1)
    ∧ (d.IsNewResource = true →
      HasError (resourceMoveAccountRead connS d trS).1.1 = true
      ∧ (resourceMoveAccountRead connS d trS).1.2 = d
      ∧ HasError (resourceMoveAccountRead connA d trA).1.1 = true
      ∧ (resourceMoveAccountRead connA d trA).1.2 = d) := by
  have fS : (FindAccountByID connS d.account_id trS).1
      = .error (.notFound ⟨none, some (.describeAccount ⟨d.account_id⟩),
          AccountStatusSuspended⟩) := by
    simp [FindAccountByID, hS, ErrCodeEquals, hstatus, StringValue]
  have fA : (FindAccountByID connA d.account_id trA).1
      = .error (.notFound ⟨some (.aws ErrCodeAccountNotFoundException text),
          some (.describeAccount ⟨d.account_id⟩), ""⟩) := by
    simp [FindAccountByID, hA, ErrCodeEquals]
  constructor
  · intro hnew
    have rS : (resourceMoveAccountRead connS d trS).1 = ([], { d with Id := "" }) := by
      simp [resourceMoveAccountRead, fS, hnew, NotFound, errOf]
    have rA : (resourceMoveAccountRead connA d trA).1 = ([], { d with Id := "" }) := by
      simp [resourceMoveAccountRead, fA, hnew, NotFound, errOf]
    exact ⟨rS, rA, by rw [rS, rA]⟩
  · intro hnew
    simp [resourceMoveAccountRead, fS, fA, hnew, HasError]

theorem resourceMoveAccountRead_suspended_as_absent_witness :
    ((storedData.IsNewResource = false →
      (resourceMoveAccountRead suspendedConn storedData []).1 = ([], { storedData with Id := "" })
      ∧ (resourceMoveAccountRead absentConn storedData []).1 = ([], { storedData with Id := "" })
      ∧ (resourceMoveAccountRead suspendedConn storedData []).1
          = (resourceMoveAccountRead absentConn storedData []).1)
    ∧ (storedData.IsNewResource = true →
      HasError (resourceMoveAccountRead suspendedConn storedData []).1.1 = true
      ∧ (resourceMoveAccountRead suspendedConn storedData []).1.2 = storedData
      ∧ HasError (resourceMoveAccountRead absentConn storedData []).1.1 = true
      ∧ (resourceMoveAccountRead absentConn storedData []).1.2 = storedData))
    ∧ (resourceMoveAccountRead suspendedConn storedData []).1
        = ([], { storedData with Id := "" }) :=
  ⟨resourceMoveAccountRead_suspended_as_absent suspendedConn absentConn storedData [] []
      ⟨"111111111111", some "SUSPENDED"⟩ none "no such account" rfl rfl rfl,
    by decide⟩

/-- C4, evaluated on a remote that answers the lookup of `111111111111` with the account
`999999999999`: the lookup succeeds, Read returns no error, and `account_id` and the resource
id are rewritten with the id of the returned account, so the fields are not all left as they
were and the id is not `111111111111/ou-root-aaa/ou-root-bbb`. -/
theorem resourceMoveAccountRead_rewrites_account_id :
    (FindAccountByID relabelConn sampleData.account_id []).1
        = .ok ⟨"999999999999", some "ACTIVE"⟩
    ∧ (resourceMoveAccountRead relabelConn sampleData []).1.1 = []
    ∧ (resourceMoveAccountRead relabelConn sampleData []).1.2.account_id = "999999999999"
    ∧ (resourceMoveAccountRead relabelConn sampleData []).1.2.account_id
        ≠ sampleData.account_id
    ∧ (resourceMoveAccountRead relabelConn sampleData []).1.2.Id
        = "999999999999/ou-root-aaa/ou-root-bbb"
    ∧ (resourceMoveAccountRead relabelConn sampleData []).1.2.Id
        ≠ sampleData.account_id ++ "/" ++ sampleData.source_ou ++ "/"
            ++ sampleData.destination_ou := by
  refine ⟨rfl, ?_, ?_, ?_, ?_, ?_⟩ <;> decide

/-- C4, amended: when the lookup of the declared account succeeds, Read returns no error,
leaves `source_ou` and `destination_ou` as they were, sets `account_id` to the id carried by
the account the lookup returned, and sets the resource id to that id, `source_ou` and
`destination_ou` joined by slashes; when the returned account carries the declared id, all
three fields are as they were and the id is `accountId/sourceOu/destinationOu`. -/
theorem resourceMoveAccountRead_found (conn : Conn) (d : ResourceData) (tr : Trace)
    (account : Account)
    (hfound : (FindAccountByID conn d.account_id tr).1 = .ok account) :
    (resourceMoveAccountRead conn d tr).1.1 = []
    ∧ (resourceMoveAccountRead conn d tr).1.2
        = { d with
            account_id := account.Id
            Id := account.Id ++ "/" ++ d.source_ou ++ "/" ++ d.destination_ou }
    ∧ (resourceMoveAccountRead conn d tr).1.2.account_id = account.Id
    ∧ (resourceMoveAccountRead conn d tr).1.2.source_ou = d.source_ou
    ∧ (resourceMoveAccountRead conn d tr).1.2.destination_ou = d.destination_ou
    ∧ (resourceMoveAccountRead conn d tr).1.2.Id
        = account.Id ++ "/" ++ d.source_ou ++ "/" ++ d.destination_ou
    ∧ (account.Id = d.account_id →
        (resourceMoveAccountRead conn d tr).1.2.account_id = d.account_id
        ∧ (resourceMoveAccountRead conn d tr).1.2.Id
            = d.account_id ++ "/" ++ d.source_ou ++ "/" ++ d.destination_ou) := by
  have hres : (resourceMoveAccountRead conn d tr).1
      = ([], { d with
            account_id := account.Id
            Id := account.Id ++ "/" ++ d.source_ou ++ "/" ++ d.destination_ou }) := by
    simp [resourceMoveAccountRead, hfound, NotFound, errOf]
  rw [hres]
  refine ⟨rfl, rfl, rfl, rfl, rfl, rfl, ?_⟩
  intro hid
  simp [hid]

theorem resourceMoveAccountRead_found_witness :
    ((resourceMoveAccountRead sampleConn sampleData []).1.1 = []
      ∧ (resourceMoveAccountRead sampleConn sampleData []).1.2
          = { sampleData with
              account_id := "111111111111"
              Id := "111111111111" ++ "/" ++ "ou-root-aaa" ++ "/" ++ "ou-root-bbb" }
      ∧ (resourceMoveAccountRead sampleConn sampleData []).1.2.account_id = "111111111111"
      ∧ (resourceMoveAccountRead sampleConn sampleData []).1.2.source_ou = "ou-root-aaa"
      ∧ (resourceMoveAccountRead sampleConn sampleData []).1.2.destination_ou = "ou-root-bbb"
      ∧ (resourceMoveAccountRead sampleConn sampleData []).1.2.Id
          = "111111111111" ++ "/" ++ "ou-root-aaa" ++ "/" ++ "ou-root-bbb"
      ∧ ("111111111111" = "111111111111" →
          (resourceMoveAccountRead sampleConn sampleData []).1.2.account_id = "111111111111"
          ∧ (resourceMoveAccountRead sampleConn sampleData []).1.2.Id
              = "111111111111" ++ "/" ++ "ou-root-aaa" ++ "/" ++ "ou-root-bbb"))
    ∧ (resourceMoveAccountRead sampleConn sampleData []).1.2.Id
        = "111111111111/ou-root-aaa/ou-root-bbb"
    ∧ (resourceMoveAccountRead relabelConn sampleData []).1.2.account_id = "999999999999" :=
  ⟨resourceMoveAccountRead_found sampleConn sampleData [] ⟨"111111111111", some "ACTIVE"⟩ rfl,
    by decide,
    (resourceMoveAccountRead_found relabelConn sampleData []
      ⟨"999999999999", some "ACTIVE"⟩ rfl).2.2.1⟩

/-! ## Move executor -/

/-- C8, evaluated on a remote that refuses the move with `AccessDeniedException`: the error
that `MoveAccount` returns is a typed NotFound error carrying the rejected request, but its
`LastError` is nil: the remote's error is not carried. -/
theorem MoveAccount_rejected_drops_cause :
    rejectingConn.MoveAccount
        [Event.describeAccount ⟨"111111111111"⟩
          (some ⟨some ⟨"111111111111", some "ACTIVE"⟩⟩) none]
        ⟨"111111111111", "ou-root-bbb", "ou-root-aaa"⟩
      = some (.aws "AccessDeniedException" "not authorized to move")
    ∧ (MoveAccount rejectingConn "111111111111" "ou-root-aaa" "ou-root-bbb" []).1
      = some (.notFound ⟨none,
          some (.moveAccount ⟨"111111111111", "ou-root-bbb", "ou-root-aaa"⟩),
          "account not found in ou, ou-root-aaa"⟩) := by
  decide

/-- The lookup that `MoveAccount` starts with failed: the error is returned as it is and the
describe call is the only call made. -/
theorem MoveAccount_lookup_failed (conn : Conn) (accountId sourceOu destinationOu : String)
    (tr : Trace) (err : GoError)
    (hfind : (FindAccountByID conn accountId tr).1 = .error err) :
    MoveAccount conn accountId sourceOu destinationOu tr
      = (some err, tr ++ [Event.describeAccount ⟨accountId⟩
          (conn.DescribeAccountWithContext tr ⟨accountId⟩).1
          (conn.DescribeAccountWithContext tr ⟨accountId⟩).2]) := by
  have htr := FindAccountByID_trace conn accountId tr
  rcases hf : FindAccountByID conn accountId tr with ⟨found, tr1⟩
  rw [hf] at hfind htr
  simp only at hfind htr
  subst hfind
  subst htr
  simp [MoveAccount, hf]

/-- The lookup that `MoveAccount` starts with succeeded: one move command is issued, with the
declared source and destination, and its rejection is turned into a NotFound error. -/
theorem MoveAccount_found (conn : Conn) (accountId sourceOu destinationOu : String)
    (tr : Trace) (account : Account)
    (hfind : (FindAccountByID conn accountId tr).1 = .ok account) :
    MoveAccount conn accountId sourceOu destinationOu tr
      = ((match conn.MoveAccount (FindAccountByID conn accountId tr).2
              ⟨account.Id, destinationOu, sourceOu⟩ with
          | some _ => some (.notFound ⟨none,
              some (.moveAccount ⟨account.Id, destinationOu, sourceOu⟩),
              "account not found in ou, " ++ sourceOu⟩)
          | none => none),
        (FindAccountByID conn accountId tr).2
          ++ [Event.moveAccount ⟨account.Id, destinationOu, sourceOu⟩
              (conn.MoveAccount (FindAccountByID conn accountId tr).2
                ⟨account.Id, destinationOu, sourceOu⟩)]) := by
  rcases hf : FindAccountByID conn accountId tr with ⟨found, tr1⟩
  rw [hf] at hfind
  simp only at hfind
  subst hfind
  simp only [MoveAccount, hf]
  cases conn.MoveAccount tr1 ⟨account.Id, destinationOu, sourceOu⟩ <;> rfl

/-- A move that returns nil made a describe call and then exactly one accepted move command
with the given source and destination. -/
theorem MoveAccount_ok (conn : Conn) (accountId sourceOu destinationOu : String)
    (tr tr1 : Trace)
    (h : MoveAccount conn accountId sourceOu destinationOu tr = (none, tr1)) :
    ∃ (account : Account) (output : Option DescribeAccountOutput) (err : Option RemoteError),
      tr1 = tr ++ [Event.describeAccount ⟨accountId⟩ output err,
        Event.moveAccount ⟨account.Id, destinationOu, sourceOu⟩ none] := by
  cases hfind : (FindAccountByID conn accountId tr).1 with
  | error e =>
    rw [MoveAccount_lookup_failed conn accountId sourceOu destinationOu tr e hfind] at h
    simp at h
  | ok account =>
    rw [MoveAccount_found conn accountId sourceOu destinationOu tr account hfind,
      FindAccountByID_trace] at h
    simp only [Prod.mk.injEq] at h
    obtain ⟨h1, h2⟩ := h
    cases hm : conn.MoveAccount
        (tr ++ [Event.describeAccount ⟨accountId⟩
          (conn.DescribeAccountWithContext tr ⟨accountId⟩).1
          (conn.DescribeAccountWithContext tr ⟨accountId⟩).2])
        ⟨account.Id, destinationOu, sourceOu⟩ with
    | some e => rw [hm] at h1; simp at h1
    | none =>
      rw [hm] at h2
      exact ⟨account, (conn.DescribeAccountWithContext tr ⟨accountId⟩).1,
        (conn.DescribeAccountWithContext tr ⟨accountId⟩).2, by rw [← h2]; simp⟩

/-- A move that returns an error made no membership listing. -/
theorem MoveAccount_failed_no_poll (conn : Conn) (accountId sourceOu destinationOu : String)
    (tr tr1 : Trace) (err : GoError)
    (h : MoveAccount conn accountId sourceOu destinationOu tr = (some err, tr1)) :
    ∃ evs, tr1 = tr ++ evs ∧ ∀ ev ∈ evs, ev.isPoll = false := by
  cases hfind : (FindAccountByID conn accountId tr).1 with
  | error e =>
    rw [MoveAccount_lookup_failed conn accountId sourceOu destinationOu tr e hfind] at h
    simp only [Prod.mk.injEq] at h
    refine ⟨_, h.2.symm, ?_⟩
    intro ev hev
    simp only [List.mem_singleton] at hev
    subst hev
    rfl
  | ok account =>
    rw [MoveAccount_found conn accountId sourceOu destinationOu tr account hfind,
      FindAccountByID_trace] at h
    simp only [Prod.mk.injEq] at h
    refine ⟨_, by rw [← h.2, List.append_assoc], ?_⟩
    intro ev hev
    simp only [List.singleton_append, List.mem_cons, List.mem_singleton, List.not_mem_nil,
      or_false] at hev
    rcases hev with hev | hev <;> subst hev <;> rfl

/-- Read makes exactly one describe call. -/
theorem resourceMoveAccountRead_trace (conn : Conn) (d : ResourceData) (tr : Trace) :
    (resourceMoveAccountRead conn d tr).2
      = tr ++ [Event.describeAccount ⟨d.account_id⟩
          (conn.DescribeAccountWithContext tr ⟨d.account_id⟩).1
          (conn.DescribeAccountWithContext tr ⟨d.account_id⟩).2] := by
  have htr := FindAccountByID_trace conn d.account_id tr
  rcases hf : FindAccountByID conn d.account_id tr with ⟨found, tr1⟩
  rw [hf] at htr
  simp only at htr
  subst htr
  unfold resourceMoveAccountRead
  rw [hf]
  simp only
  split
  · rfl
  · split <;> rfl

/-! ## Confirmation poll -/

/-- A poll that returns made only first-page membership listings of the target unit, and its
result is decided by the last one: `true` with no diagnostics when that page lists the
account, `false` with an error when that call failed. -/
theorem waitForMove_returned (conn : Conn) (accountId parentOu : String) :
    ∀ (fuel : Nat) (tr : Trace) (res : Bool × Diagnostics) (tr1 : Trace),
      waitForMove conn accountId parentOu fuel tr = (.returned res, tr1) →
      ∃ pre reply,
        tr1 = tr ++ pre ++ [Event.listAccountsForParent parentOu none reply]
        ∧ conn.ListAccountsForParent (tr ++ pre) parentOu none = reply
        ∧ (∀ ev ∈ pre, ∃ r, ev = Event.listAccountsForParent parentOu none r)
        ∧ ((∃ status, reply = .ok status ∧ accountId ∈ status.Accounts.map Account.Id
              ∧ res = (true, []))
          ∨ (∃ err, reply = .fail err
              ∧ res = (false, Errorf ("error reading OU status of account " ++ accountId
                  ++ ": " ++ err.Error)))) := by
  intro fuel
  induction fuel with
  | zero =>
    intro tr res tr1 h
    simp [waitForMove] at h
  | succ n ih =>
    intro tr res tr1 h
    unfold waitForMove at h
    simp only at h
    cases hreply : conn.ListAccountsForParent tr parentOu none with
    | fail err =>
      rw [hreply] at h
      simp only [Prod.mk.injEq, Run.returned.injEq] at h
      refine ⟨[], .fail err, ?_, ?_, ?_, Or.inr ⟨err, rfl, h.1.symm⟩⟩
      · simp [← h.2]
      · simpa using hreply
      · simp
    | ok status =>
      rw [hreply] at h
      simp only at h
      by_cases hany : status.Accounts.any (fun account => account.Id == accountId) = true
      · rw [if_pos hany] at h
        simp only [Prod.mk.injEq, Run.returned.injEq] at h
        refine ⟨[], .ok status, ?_, ?_, ?_, Or.inl ⟨status, rfl, ?_, h.1.symm⟩⟩
        · simp [← h.2]
        · simpa using hreply
        · simp
        · rw [List.any_eq_true] at hany
          obtain ⟨x, hx, hxa⟩ := hany
          exact List.mem_map.2 ⟨x, hx, by simpa using hxa⟩
      · rw [if_neg hany] at h
        obtain ⟨pre, reply, h1, h2, h3, h4⟩ := ih _ res tr1 h
        refine ⟨Event.listAccountsForParent parentOu none (.ok status) :: pre, reply,
          ?_, ?_, ?_, h4⟩
        · simpa using h1
        · simpa using h2
        · intro ev hev
          rcases List.mem_cons.1 hev with hev | hev
          · exact ⟨_, hev⟩
          · exact h3 ev hev

/-- A poll whose first page does not list the account, and whose call did not fail, goes
round again. -/
theorem waitForMove_unseen (conn : Conn) (accountId parentOu : String) (fuel : Nat)
    (tr : Trace) (status : ListAccountsForParentOutput)
    (hreply : conn.ListAccountsForParent tr parentOu none = .ok status)
    (hunseen : accountId ∉ status.Accounts.map Account.Id) :
    waitForMove conn accountId parentOu (fuel + 1) tr
      = waitForMove conn accountId parentOu fuel
          (tr ++ [Event.listAccountsForParent parentOu none (.ok status)]) := by
  have hany : ¬ status.Accounts.any (fun account => account.Id == accountId) = true := by
    intro hany
    rw [List.any_eq_true] at hany
    obtain ⟨x, hx, hxa⟩ := hany
    exact hunseen (List.mem_map.2 ⟨x, hx, by simpa using hxa⟩)
  conv_lhs => unfold waitForMove
  simp only [hreply, if_neg hany]

/-- Against a remote that never fails and never lists the account, the poll returns for no
amount of fuel. -/
theorem waitForMove_never_gives_up (conn : Conn) (accountId parentOu : String)
    (hnever : ∀ tr, ∃ status, conn.ListAccountsForParent tr parentOu none = .ok status
      ∧ accountId ∉ status.Accounts.map Account.Id) :
    ∀ (fuel : Nat) (tr : Trace),
      (waitForMove conn accountId parentOu fuel tr).1 = .stuck .outOfFuel := by
  intro fuel
  induction fuel with
  | zero => intro tr; rfl
  | succ n ih =>
    intro tr
    obtain ⟨status, hreply, hunseen⟩ := hnever tr
    rw [waitForMove_unseen conn accountId parentOu n tr status hreply hunseen]
    exact ih _

/-- Membership listings are not move commands. -/
theorem movesOf_polls (parentOu : String) (evs : Trace)
    (h : ∀ ev ∈ evs, ∃ r, ev = Event.listAccountsForParent parentOu none r) :
    movesOf evs = [] := by
  induction evs with
  | nil => rfl
  | cons ev rest ih =>
    obtain ⟨r, hr⟩ := h ev (List.mem_cons_self _ _)
    have hrest := ih (fun e he => h e (List.mem_cons_of_mem _ he))
    subst hr
    simpa [movesOf, Event.moveInput] using hrest

theorem movesOf_append (a b : Trace) : movesOf (a ++ b) = movesOf a ++ movesOf b := by
  simp [movesOf, List.filterMap_append]

/-! ## Create -/

/-- C1: when Create returns without an error diagnostic, the calls it made contain exactly one
move command, from `source_ou` to `destination_ou`, accepted by the remote, and after it a
first-page membership listing of `destination_ou` that the remote answered with a page
holding the account; when `MoveAccount` returns an error, Create returns that error as an
error diagnostic, makes no membership listing and leaves the declaration, id included,
untouched. -/
theorem resourceMoveAccountCreate_contract (conn : Conn) (fuel : Nat) (d : ResourceData)
    (tr : Trace) :
    (∀ diags d1 tr1,
      resourceMoveAccountCreate conn fuel d tr = (.returned (diags, d1), tr1) →
      HasError diags = false →
      ∃ (account : Account) (before polls after : Trace)
          (status : ListAccountsForParentOutput),
        tr1 = tr ++ (before
            ++ [Event.moveAccount ⟨account.Id, d.destination_ou, d.source_ou⟩ none]
            ++ polls ++ [Event.listAccountsForParent d.destination_ou none (.ok status)]
            ++ after)
        ∧ movesOf (before
            ++ [Event.moveAccount ⟨account.Id, d.destination_ou, d.source_ou⟩ none]
            ++ polls ++ [Event.listAccountsForParent d.destination_ou none (.ok status)]
            ++ after) = [⟨account.Id, d.destination_ou, d.source_ou⟩]
        ∧ conn.ListAccountsForParent
            (tr ++ (before
              ++ [Event.moveAccount ⟨account.Id, d.destination_ou, d.source_ou⟩ none]
              ++ polls)) d.destination_ou none = .ok status
        ∧ d.account_id ∈ status.Accounts.map Account.Id)
    ∧ (∀ err tr1,
      MoveAccount conn d.account_id d.source_ou d.destination_ou tr = (some err, tr1) →
      resourceMoveAccountCreate conn fuel d tr = (.returned (FromErr err, d), tr1)
      ∧ HasError (FromErr err) = true
      ∧ ∃ evs, tr1 = tr ++ evs ∧ ∀ ev ∈ evs, ev.isPoll = false) := by
  constructor
  · intro diags d1 tr1 h hne
    unfold resourceMoveAccountCreate at h
    simp only at h
    rcases hM : MoveAccount conn d.account_id d.source_ou d.destination_ou tr with ⟨merr, t1⟩
    rw [hM] at h
    cases merr with
    | some err =>
      simp only [Prod.mk.injEq, Run.returned.injEq] at h
      rw [← h.1.1] at hne
      simp [FromErr, HasError] at hne
    | none =>
      simp only at h
      obtain ⟨account, output, derr, ht1⟩ :=
        MoveAccount_ok conn d.account_id d.source_ou d.destination_ou tr t1 hM
      rcases hW : waitForMove conn d.account_id d.destination_ou fuel t1 with ⟨run, t2⟩
      rw [hW] at h
      cases run with
      | stuck why => simp at h
      | returned res =>
        obtain ⟨pre, reply, ht2, hreply, hpre, hres⟩ :=
          waitForMove_returned conn d.account_id d.destination_ou fuel t1 res t2 hW
        rcases hres with ⟨status, hrep, hmem, hres⟩ | ⟨err, hrep, hres⟩
        · subst hres
          subst hrep
          simp only [HasError, List.any_nil, Bool.false_eq_true, ↓reduceIte, Bool.not_true,
            Prod.mk.injEq, Run.returned.injEq] at h
          have htr := resourceMoveAccountRead_trace conn d t2
          rw [h.2] at htr
          refine ⟨account, [Event.describeAccount ⟨d.account_id⟩ output derr], pre,
            [Event.describeAccount ⟨d.account_id⟩
              (conn.DescribeAccountWithContext t2 ⟨d.account_id⟩).1
              (conn.DescribeAccountWithContext t2 ⟨d.account_id⟩).2], status, ?_, ?_, ?_, hmem⟩
          · rw [htr, ht2, ht1]
            simp
          · simp only [movesOf_append, movesOf_polls d.destination_ou pre hpre]
            simp [movesOf, Event.moveInput]
          · rw [← hreply, ht1]
            simp
        · subst hres
          simp only [HasError, Errorf, List.any_cons, beq_self_eq_true, List.any_nil,
            Bool.or_false, ↓reduceIte, Prod.mk.injEq, Run.returned.injEq] at h
          rw [← h.1.1] at hne
          simp [HasError] at hne
  · intro err tr1 hM
    refine ⟨?_, by simp [FromErr, HasError],
      MoveAccount_failed_no_poll conn d.account_id d.source_ou d.destination_ou tr tr1 err hM⟩
    unfold resourceMoveAccountCreate
    simp only [hM]

theorem resourceMoveAccountCreate_contract_witness :
    resourceMoveAccountCreate sampleConn 3 sampleData []
      = (.returned ([], { sampleData with Id := "111111111111/ou-root-aaa/ou-root-bbb" }),
          sampleCreateTrace)
    ∧ ∃ (account : Account) (before polls after : Trace)
          (status : ListAccountsForParentOutput),
        sampleCreateTrace = [] ++ (before
            ++ [Event.moveAccount ⟨account.Id, "ou-root-bbb", "ou-root-aaa"⟩ none]
            ++ polls ++ [Event.listAccountsForParent "ou-root-bbb" none (.ok status)]
            ++ after)
        ∧ movesOf (before
            ++ [Event.moveAccount ⟨account.Id, "ou-root-bbb", "ou-root-aaa"⟩ none]
            ++ polls ++ [Event.listAccountsForParent "ou-root-bbb" none (.ok status)]
            ++ after) = [⟨account.Id, "ou-root-bbb", "ou-root-aaa"⟩]
        ∧ sampleConn.ListAccountsForParent
            ([] ++ (before
              ++ [Event.moveAccount ⟨account.Id, "ou-root-bbb", "ou-root-aaa"⟩ none]
              ++ polls)) "ou-root-bbb" none = .ok status
        ∧ "111111111111" ∈ status.Accounts.map Account.Id :=
  ⟨by decide,
    (resourceMoveAccountCreate_contract sampleConn 3 sampleData []).1 []
      { sampleData with Id := "111111111111/ou-root-aaa/ou-root-bbb" } sampleCreateTrace
      (by decide) rfl⟩

/-! ## Delete -/

/-- C2: when the confirmation poll of `destination_ou` that Delete starts with fails, Delete
returns that error and has issued no move command; whenever Delete returns without error,
the calls it made contain exactly one move command, accepted by the remote, whose source is
`destination_ou` and whose destination is `source_ou`, and after it a first-page membership
listing of `source_ou` that the remote answered with a page holding the account. -/
theorem resourceMoveAccountDelete_contract (conn : Conn) (fuel : Nat) (d : ResourceData)
    (tr : Trace) :
    (∀ res t1,
      waitForMove conn d.account_id d.destination_ou fuel tr = (.returned res, t1) →
      HasError res.2 = true →
      resourceMoveAccountDelete conn fuel d tr = (.returned res.2, t1)
      ∧ ∃ evs, t1 = tr ++ evs ∧ movesOf evs = [])
    ∧ (∀ diags tr1,
      resourceMoveAccountDelete conn fuel d tr = (.returned diags, tr1) →
      HasError diags = false →
      ∃ (account : Account) (before polls : Trace) (status : ListAccountsForParentOutput),
        tr1 = tr ++ (before
            ++ [Event.moveAccount ⟨account.Id, d.source_ou, d.destination_ou⟩ none]
            ++ polls ++ [Event.listAccountsForParent d.source_ou none (.ok status)])
        ∧ movesOf (before
            ++ [Event.moveAccount ⟨account.Id, d.source_ou, d.destination_ou⟩ none]
            ++ polls ++ [Event.listAccountsForParent d.source_ou none (.ok status)])
          = [⟨account.Id, d.source_ou, d.destination_ou⟩]
        ∧ conn.ListAccountsForParent
            (tr ++ (before
              ++ [Event.moveAccount ⟨account.Id, d.source_ou, d.destination_ou⟩ none]
              ++ polls)) d.source_ou none = .ok status
        ∧ d.account_id ∈ status.Accounts.map Account.Id) := by
  constructor
  · intro res t1 hW herr
    obtain ⟨pre, reply, ht1, -, hpre, -⟩ :=
      waitForMove_returned conn d.account_id d.destination_ou fuel tr res t1 hW
    constructor
    · unfold resourceMoveAccountDelete
      simp only [hW, herr, ↓reduceIte]
    · refine ⟨pre ++ [Event.listAccountsForParent d.destination_ou none reply], ?_, ?_⟩
      · rw [ht1, List.append_assoc]
      · rw [movesOf_append, movesOf_polls d.destination_ou pre hpre]
        rfl
  · intro diags tr1 h hne
    unfold resourceMoveAccountDelete at h
    simp only at h
    rcases hW : waitForMove conn d.account_id d.destination_ou fuel tr with ⟨run, t1⟩
    rw [hW] at h
    cases run with
    | stuck why => simp at h
    | returned res =>
      obtain ⟨pre, reply, ht1, -, hpre, hres⟩ :=
        waitForMove_returned conn d.account_id d.destination_ou fuel tr res t1 hW
      rcases hres with ⟨status1, hrep, -, hres⟩ | ⟨err, hrep, hres⟩
      · subst hres
        subst hrep
        simp only [HasError, List.any_nil, Bool.false_eq_true, ↓reduceIte, Bool.not_true] at h
        rcases hM : MoveAccount conn d.account_id d.destination_ou d.source_ou t1
          with ⟨merr, t2⟩
        rw [hM] at h
        cases merr with
        | some err =>
          simp only [Prod.mk.injEq, Run.returned.injEq] at h
          rw [← h.1] at hne
          simp [Errorf, HasError] at hne
        | none =>
          simp only at h
          obtain ⟨account, output, derr, ht2⟩ :=
            MoveAccount_ok conn d.account_id d.destination_ou d.source_ou t1 t2 hM
          rcases hW2 : waitForMove conn d.account_id d.source_ou fuel t2 with ⟨run2, t3⟩
          rw [hW2] at h
          cases run2 with
          | stuck why => simp at h
          | returned res2 =>
            obtain ⟨pre2, reply2, ht3, hreply2, hpre2, hres2⟩ :=
              waitForMove_returned conn d.account_id d.source_ou fuel t2 res2 t3 hW2
            rcases hres2 with ⟨status2, hrep2, hmem2, hres2⟩ | ⟨err, hrep2, hres2⟩
            · subst hres2
              subst hrep2
              simp only [HasError, List.any_nil, Bool.false_eq_true, ↓reduceIte, Bool.not_true,
                Prod.mk.injEq, Run.returned.injEq] at h
              refine ⟨account,
                pre ++ [Event.listAccountsForParent d.destination_ou none (.ok status1)]
                  ++ [Event.describeAccount ⟨d.account_id⟩ output derr],
                pre2, status2, ?_, ?_, ?_, hmem2⟩
              · rw [← h.2, ht3, ht2, ht1]
                simp
              · simp only [movesOf_append, movesOf_polls d.destination_ou pre hpre,
                  movesOf_polls d.source_ou pre2 hpre2]
                simp [movesOf, Event.moveInput]
              · rw [← hreply2, ht2, ht1]
                simp
            · subst hres2
              simp only [HasError, Errorf, List.any_cons, beq_self_eq_true, List.any_nil,
                Bool.or_false, ↓reduceIte, Prod.mk.injEq, Run.returned.injEq] at h
              rw [← h.1] at hne
              simp [HasError] at hne
      · subst hres
        simp only [HasError, Errorf, List.any_cons, beq_self_eq_true, List.any_nil,
          Bool.or_false, ↓reduceIte, Prod.mk.injEq, Run.returned.injEq] at h
        rw [← h.1] at hne
        simp [HasError] at hne

theorem resourceMoveAccountDelete_contract_witness :
    (resourceMoveAccountDelete brokenListConn 3 storedData []
        = (.returned (Errorf
            "error reading OU status of account 111111111111: request timed out"),
          [Event.listAccountsForParent "ou-root-bbb" none (.fail (.plain "request timed out"))])
      ∧ ∃ evs, [Event.listAccountsForParent "ou-root-bbb" none
            (.fail (.plain "request timed out"))] = [] ++ evs ∧ movesOf evs = [])
    ∧ resourceMoveAccountDelete sampleConn 3 storedData sampleCreateTrace
        = (.returned [], sampleCreateTrace ++ sampleDeleteTrace)
    ∧ ∃ (account : Account) (before polls : Trace) (status : ListAccountsForParentOutput),
        sampleCreateTrace ++ sampleDeleteTrace = sampleCreateTrace ++ (before
            ++ [Event.moveAccount ⟨account.Id, "ou-root-aaa", "ou-root-bbb"⟩ none]
            ++ polls ++ [Event.listAccountsForParent "ou-root-aaa" none (.ok status)])
        ∧ movesOf (before
            ++ [Event.moveAccount ⟨account.Id, "ou-root-aaa", "ou-root-bbb"⟩ none]
            ++ polls ++ [Event.listAccountsForParent "ou-root-aaa" none (.ok status)])
          = [⟨account.Id, "ou-root-aaa", "ou-root-bbb"⟩]
        ∧ sampleConn.ListAccountsForParent
            (sampleCreateTrace ++ (before
              ++ [Event.moveAccount ⟨account.Id, "ou-root-aaa", "ou-root-bbb"⟩ none]
              ++ polls)) "ou-root-aaa" none = .ok status
        ∧ "111111111111" ∈ status.Accounts.map Account.Id :=
  ⟨(resourceMoveAccountDelete_contract brokenListConn 3 storedData []).1
      (false, Errorf "error reading OU status of account 111111111111: request timed out")
      [Event.listAccountsForParent "ou-root-bbb" none (.fail (.plain "request timed out"))]
      (by decide) (by decide),
    by decide,
    (resourceMoveAccountDelete_contract sampleConn 3 storedData sampleCreateTrace).2 []
      (sampleCreateTrace ++ sampleDeleteTrace) (by decide) rfl⟩

/-- A poll that returns without an error diagnostic returned `true`. -/
theorem waitForMove_true_of_no_error (conn : Conn) (accountId parentOu : String)
    (fuel : Nat) (tr : Trace) (res : Bool × Diagnostics) (tr1 : Trace)
    (h : waitForMove conn accountId parentOu fuel tr = (.returned res, tr1))
    (hne : HasError res.2 = false) : res = (true, []) := by
  obtain ⟨pre, reply, -, -, -, hres⟩ :=
    waitForMove_returned conn accountId parentOu fuel tr res tr1 h
  rcases hres with ⟨status, -, -, hres⟩ | ⟨err, -, hres⟩
  · exact hres
  · subst hres
    simp [Errorf, HasError] at hne

/-! ## What the poll can return -/

/-- C10: a poll that returns either returns `(true, nil)`, and then the last membership
listing it received is a first page holding the account, or returns `false` with an error
diagnostic, and then its last listing call failed; it never returns `false` without an
error; every call it makes is a listing of the target unit without continuation token; a
page that does not hold the account sends the loop round again, for ever against a remote
that never shows the account; and so in Create, Update and Delete a poll that returned
without error is always followed by the step after the `!result` guard. -/
theorem waitForMove_contract (conn : Conn) (accountId parentOu : String) (fuel : Nat)
    (tr : Trace) (res : Bool × Diagnostics) (tr1 : Trace)
    (h : waitForMove conn accountId parentOu fuel tr = (.returned res, tr1)) :
    (∃ pre reply,
        tr1 = tr ++ pre ++ [Event.listAccountsForParent parentOu none reply]
        ∧ conn.ListAccountsForParent (tr ++ pre) parentOu none = reply
        ∧ (∀ ev ∈ pre, ∃ r, ev = Event.listAccountsForParent parentOu none r)
        ∧ ((res = (true, []) ∧ ∃ status, reply = .ok status
              ∧ accountId ∈ status.Accounts.map Account.Id)
          ∨ (res.1 = false ∧ HasError res.2 = true ∧ ∃ err, reply = .fail err)))
    ∧ ¬ (res.1 = false ∧ HasError res.2 = false)
    ∧ (∀ (n : Nat) (t : Trace) (status : ListAccountsForParentOutput),
        conn.ListAccountsForParent t parentOu none = .ok status →
        accountId ∉ status.Accounts.map Account.Id →
        waitForMove conn accountId parentOu (n + 1) t
          = waitForMove conn accountId parentOu n
              (t ++ [Event.listAccountsForParent parentOu none (.ok status)]))
    ∧ ((∀ t, ∃ status, conn.ListAccountsForParent t parentOu none = .ok status
          ∧ accountId ∉ status.Accounts.map Account.Id) →
        ∀ (n : Nat) (t : Trace),
          (waitForMove conn accountId parentOu n t).1 = .stuck .outOfFuel)
    ∧ (∀ (d : ResourceData) (n : Nat) (t0 t1 t2 : Trace) (r : Bool × Diagnostics),
        MoveAccount conn d.account_id d.source_ou d.destination_ou t0 = (none, t1) →
        waitForMove conn d.account_id d.destination_ou n t1 = (.returned r, t2) →
        HasError r.2 = false →
        resourceMoveAccountCreate conn n d t0
          = (.returned (resourceMoveAccountRead conn d t2).1,
              (resourceMoveAccountRead conn d t2).2))
    ∧ (∀ (d : ResourceData) (n : Nat) (t0 t1 t2 t3 : Trace) (account : Account)
          (r : Bool × Diagnostics),
        d.HasChanges = true →
        FindAccountByID conn d.account_id t0 = (.ok account, t1) →
        MoveAccount conn d.account_id d.source_ou d.destination_ou t1 = (none, t2) →
        waitForMove conn d.account_id d.destination_ou n t2 = (.returned r, t3) →
        HasError r.2 = false →
        resourceMoveAccountUpdate conn n d t0
          = (.returned (resourceMoveAccountRead conn d t3).1,
              (resourceMoveAccountRead conn d t3).2))
    ∧ (∀ (d : ResourceData) (n : Nat) (t0 t1 t2 : Trace) (r : Bool × Diagnostics)
          (err : GoError),
        waitForMove conn d.account_id d.destination_ou n t0 = (.returned r, t1) →
        HasError r.2 = false →
        MoveAccount conn d.account_id d.destination_ou d.source_ou t1 = (some err, t2) →
        resourceMoveAccountDelete conn n d t0
          = (.returned (Errorf ("error reverting account move for " ++ d.account_id ++ ": "
              ++ err.Error)), t2))
    ∧ (∀ (d : ResourceData) (n : Nat) (t0 t1 t2 t3 : Trace) (r r2 : Bool × Diagnostics),
        waitForMove conn d.account_id d.destination_ou n t0 = (.returned r, t1) →
        HasError r.2 = false →
        MoveAccount conn d.account_id d.destination_ou d.source_ou t1 = (none, t2) →
        waitForMove conn d.account_id d.source_ou n t2 = (.returned r2, t3) →
        HasError r2.2 = false →
        resourceMoveAccountDelete conn n d t0 = (.returned [], t3)) := by
  refine ⟨?_, ?_, ?_, ?_, ?_, ?_, ?_, ?_⟩
  · obtain ⟨pre, reply, h1, h2, h3, h4⟩ :=
      waitForMove_returned conn accountId parentOu fuel tr res tr1 h
    refine ⟨pre, reply, h1, h2, h3, ?_⟩
    rcases h4 with ⟨status, hrep, hmem, hres⟩ | ⟨err, hrep, hres⟩
    · exact Or.inl ⟨hres, status, hrep, hmem⟩
    · subst hres
      exact Or.inr ⟨rfl, by simp [Errorf, HasError], err, hrep⟩
  · rintro ⟨hfalse, hne⟩
    have := waitForMove_true_of_no_error conn accountId parentOu fuel tr res tr1 h hne
    rw [this] at hfalse
    simp at hfalse
  · intro n t status hreply hunseen
    exact waitForMove_unseen conn accountId parentOu n t status hreply hunseen
  · intro hnever n t
    exact waitForMove_never_gives_up conn accountId parentOu hnever n t
  · intro d n t0 t1 t2 r hM hW hne
    have hr := waitForMove_true_of_no_error conn _ _ n t1 r t2 hW hne
    subst hr
    unfold resourceMoveAccountCreate
    simp only [hM, hW, HasError, List.any_nil, Bool.false_eq_true, ↓reduceIte, Bool.not_true]
  · intro d n t0 t1 t2 t3 account r hch hF hM hW hne
    have hr := waitForMove_true_of_no_error conn _ _ n t2 r t3 hW hne
    subst hr
    unfold resourceMoveAccountUpdate
    simp only [hch, hF, hM, hW, errOf, NotFound, HasError, List.any_nil, Bool.false_eq_true,
      ↓reduceIte, Bool.not_true, Bool.and_false]
  · intro d n t0 t1 t2 r err hW hne hM
    have hr := waitForMove_true_of_no_error conn _ _ n t0 r t1 hW hne
    subst hr
    unfold resourceMoveAccountDelete
    simp only [hM, hW, HasError, List.any_nil, Bool.false_eq_true, ↓reduceIte, Bool.not_true]
  · intro d n t0 t1 t2 t3 r r2 hW hne hM hW2 hne2
    have hr := waitForMove_true_of_no_error conn _ _ n t0 r t1 hW hne
    have hr2 := waitForMove_true_of_no_error conn _ _ n t2 r2 t3 hW2 hne2
    subst hr
    subst hr2
    unfold resourceMoveAccountDelete
    simp only [hM, hW, hW2, HasError, List.any_nil, Bool.false_eq_true, ↓reduceIte,
      Bool.not_true]

theorem waitForMove_contract_witness :
    ∃ pre reply,
      [Event.listAccountsForParent "ou-root-aaa" none
          (.ok ⟨[⟨"111111111111", some "ACTIVE"⟩], none⟩)]
        = [] ++ pre ++ [Event.listAccountsForParent "ou-root-aaa" none reply]
      ∧ sampleConn.ListAccountsForParent ([] ++ pre) "ou-root-aaa" none = reply
      ∧ (∀ ev ∈ pre, ∃ r, ev = Event.listAccountsForParent "ou-root-aaa" none r)
      ∧ ((((true, []) : Bool × Diagnostics) = (true, []) ∧ ∃ status, reply = .ok status
            ∧ "111111111111" ∈ status.Accounts.map Account.Id)
        ∨ (((true, []) : Bool × Diagnostics).1 = false
            ∧ HasError ((true, []) : Bool × Diagnostics).2 = true
            ∧ ∃ err, reply = .fail err)) :=
  (waitForMove_contract sampleConn "111111111111" "ou-root-aaa" 2 [] (true, [])
    [Event.listAccountsForParent "ou-root-aaa" none
      (.ok ⟨[⟨"111111111111", some "ACTIVE"⟩], none⟩)] (by decide)).1

/-! ## Hierarchy walker -/

theorem descendList_append (xs ys : List OUTree) :
    OUTree.descendList (xs ++ ys) = OUTree.descendList xs ++ OUTree.descendList ys := by
  induction xs with
  | nil => simp [OUTree.descendList]
  | cons x rest ih => simp [OUTree.descendList, ih]

/-- Below the units of a listing the walk reaches what it reaches below each listed unit. -/
theorem descendPages_eq (ps : Pages OUTree) :
    OUTree.descendPages ps = OUTree.descendList ps.items := by
  induction ps with
  | last items => simp [OUTree.descendPages, Pages.items]
  | more items token rest ih =>
    simp [OUTree.descendPages, Pages.items, descendList_append, ih]
  | fail err => simp [OUTree.descendPages, Pages.items, OUTree.descendList]

theorem descendList_eq_flatMap (ts : List OUTree) :
    OUTree.descendList ts = ts.flatMap (fun k => k.ou :: k.descend) := by
  induction ts with
  | nil => simp [OUTree.descendList]
  | cons t rest ih => simp [OUTree.descendList, ih]

/-- A unit whose own child listing fails contributes nothing below itself. -/
theorem descend_of_failure (t : OUTree) (h : t.children.failure ≠ none) : t.descend = [] := by
  cases t with
  | node ou accounts children =>
    simp only [OUTree.children] at h
    cases hf : children.failure with
    | none => exact absurd hf h
    | some err => simp [OUTree.descend, hf]

/-- A unit whose own child listing succeeds contributes each child followed by what the child
contributes. -/
theorem descend_of_success (t : OUTree) (h : t.children.failure = none) :
    t.descend = t.children.items.flatMap (fun k => k.ou :: k.descend) := by
  cases t with
  | node ou accounts children =>
    simp only [OUTree.children] at h
    simp [OUTree.descend, h, OUTree.children, descendPages_eq, descendList_eq_flatMap]

theorem calls_le_costPages (ps : Pages OUTree) : ps.calls ≤ OUTree.costPages ps := by
  induction ps with
  | last items => simp [Pages.calls, OUTree.costPages]
  | more items token rest ih => simp only [Pages.calls, OUTree.costPages]; omega
  | fail err => simp [Pages.calls, OUTree.costPages]

theorem cost_le_costList (ts : List OUTree) (k : OUTree) (hk : k ∈ ts) :
    k.cost ≤ OUTree.costList ts := by
  induction ts with
  | nil => simp at hk
  | cons t rest ih =>
    simp only [OUTree.costList]
    rcases List.mem_cons.1 hk with h | h
    · subst h; omega
    · have := ih h; omega

theorem cost_lt_costPages (ps : Pages OUTree) (k : OUTree) (hk : k ∈ ps.items) :
    k.cost < OUTree.costPages ps := by
  induction ps with
  | last items =>
    simp only [Pages.items] at hk
    have := cost_le_costList items k hk
    simp only [OUTree.costPages]; omega
  | more items token rest ih =>
    simp only [Pages.items, List.mem_append] at hk
    simp only [OUTree.costPages]
    rcases hk with h | h
    · have := cost_le_costList items k h; omega
    · have := ih h; omega
  | fail err => simp [Pages.items] at hk

theorem nodes_self (t : OUTree) : t ∈ t.nodes := by
  cases t with
  | node ou accounts children => simp [OUTree.nodes]

theorem nodes_subset_nodesList (ts : List OUTree) (k : OUTree) (hk : k ∈ ts) :
    ∀ n ∈ k.nodes, n ∈ OUTree.nodesList ts := by
  induction ts with
  | nil => simp at hk
  | cons t rest ih =>
    intro n hn
    simp only [OUTree.nodesList, List.mem_append]
    rcases List.mem_cons.1 hk with h | h
    · subst h; exact Or.inl hn
    · exact Or.inr (ih h n hn)

theorem nodes_subset_nodesPages (ps : Pages OUTree) (k : OUTree) (hk : k ∈ ps.items) :
    ∀ n ∈ k.nodes, n ∈ OUTree.nodesPages ps := by
  induction ps with
  | last items =>
    simp only [Pages.items] at hk
    simpa [OUTree.nodesPages] using nodes_subset_nodesList items k hk
  | more items token rest ih =>
    intro n hn
    simp only [Pages.items, List.mem_append] at hk
    simp only [OUTree.nodesPages, List.mem_append]
    rcases hk with h | h
    · exact Or.inl (nodes_subset_nodesList items k h n hn)
    · exact Or.inr (ih h n hn)
  | fail err => simp [Pages.items] at hk

/-- The nodes of a child are nodes of the parent. -/
theorem nodes_of_child (t k : OUTree) (hk : k ∈ t.children.items) :
    ∀ n ∈ k.nodes, n ∈ t.nodes := by
  cases t with
  | node ou accounts children =>
    intro n hn
    simp only [OUTree.children] at hk
    simp only [OUTree.nodes, List.mem_cons]
    exact Or.inr (nodes_subset_nodesPages children k hk n hn)

/-- The paging loop of `getOrganizationalUnits` against a served listing: it fails with the
error of the failing call if there is one and otherwise returns all pages appended. -/
theorem getOrganizationalUnitsLoop_served (conn : Conn) (parentId : String)
    (ps : Pages OUTree) :
    ∀ (token : Option String) (ouSlice : List OrganizationalUnit) (fuel : Nat) (tr : Trace),
      ServesUnitPages conn parentId token ps → ps.calls ≤ fuel →
      (getOrganizationalUnitsLoop conn parentId fuel token ouSlice tr).1
        = .returned (match ps.failure with
            | some err => .fail err
            | none => .ok (ouSlice ++ ps.items.map OUTree.ou)) := by
  induction ps with
  | last items =>
    intro token ouSlice fuel tr hs hf
    cases fuel with
    | zero => simp [Pages.calls] at hf
    | succ n =>
      simp only [ServesUnitPages] at hs
      simp [getOrganizationalUnitsLoop, hs tr, Pages.failure, Pages.items]
  | more items next rest ih =>
    intro token ouSlice fuel tr hs hf
    cases fuel with
    | zero => simp [Pages.calls] at hf
    | succ n =>
      simp only [ServesUnitPages] at hs
      simp only [Pages.calls, Nat.add_le_add_iff_right] at hf
      simp only [getOrganizationalUnitsLoop, hs.1 tr, Pages.failure, Pages.items]
      rw [ih (some next) _ n _ hs.2 hf]
      simp
  | fail err =>
    intro token ouSlice fuel tr hs hf
    cases fuel with
    | zero => simp [Pages.calls] at hf
    | succ n =>
      simp only [ServesUnitPages] at hs
      simp [getOrganizationalUnitsLoop, hs tr, Pages.failure]

/-- The `range currentOUs` loop, when every recursive call returns what the walk of that
child is expected to return: a failing child is kept and adds nothing below itself. -/
theorem expandUnits_served
    (recurse : OrganizationalUnit → Trace → Run (Reply (List OrganizationalUnit)) × Trace)
    (ts : List OUTree)
    (hrec : ∀ k ∈ ts, ∀ tr, (recurse k.ou tr).1 = .returned k.walk) :
    ∀ (ous : List OrganizationalUnit) (tr : Trace),
      (expandUnits recurse (ts.map OUTree.ou) ous tr).1
        = .returned (ous ++ OUTree.descendList ts) := by
  induction ts with
  | nil =>
    intro ous tr
    simp [expandUnits, OUTree.descendList]
  | cons k rest ih =>
    intro ous tr
    have hk := hrec k (List.mem_cons_self _ _) tr
    have hrest := ih (fun c hc => hrec c (List.mem_cons_of_mem _ hc))
    rcases hr : recurse k.ou tr with ⟨run, t1⟩
    rw [hr] at hk
    simp only at hk
    subst hk
    simp only [List.map_cons, expandUnits, hr, OUTree.walk]
    cases hf : k.children.failure with
    | some err =>
      simp only
      rw [hrest]
      have hd : k.descend = [] := descend_of_failure k (by rw [hf]; simp)
      simp [OUTree.descendList, hd]
    | none =>
      simp only
      rw [hrest]
      simp [OUTree.descendList]

/-- The walker on a served tree, with enough fuel: it fails exactly with the error of the
root's own child listing, and otherwise returns the units of `descend`. -/
theorem getOrganizationalUnitsRecursive_served (conn : Conn) :
    ∀ (fuel : Nat) (t : OUTree) (tr : Trace),
      t.cost ≤ fuel → ServesUnits conn t →
      (getOrganizationalUnitsRecursive conn fuel t.ou tr).1 = .returned t.walk := by
  intro fuel
  induction fuel with
  | zero =>
    intro t tr hcost
    cases t with
    | node ou accounts children => simp [OUTree.cost] at hcost
  | succ n ih =>
    intro t tr hcost hserve
    have hkids : ∀ k ∈ t.children.items, ∀ tr1,
        (getOrganizationalUnitsRecursive conn n k.ou tr1).1 = .returned k.walk := by
      intro k hk tr1
      refine ih k tr1 ?_ (fun m hm => hserve m (nodes_of_child t k hk m hm))
      cases t with
      | node ou accounts children =>
        simp only [OUTree.children] at hk
        have := cost_lt_costPages children k hk
        simp only [OUTree.cost] at hcost
        omega
    have hown := hserve t (nodes_self t)
    have hcalls : t.children.calls ≤ n := by
      cases t with
      | node ou accounts children =>
        have := calls_le_costPages children
        simp only [OUTree.cost] at hcost
        simp only [OUTree.children]
        omega
    have hloop := getOrganizationalUnitsLoop_served conn t.ou.Id t.children none [] n tr
      hown hcalls
    rcases hl : getOrganizationalUnitsLoop conn t.ou.Id n none [] tr with ⟨run, t1⟩
    rw [hl] at hloop
    simp only at hloop
    subst hloop
    simp only [getOrganizationalUnitsRecursive, getOrganizationalUnits, hl, OUTree.walk]
    cases hf : t.children.failure with
    | some err => simp
    | none =>
      simp only [List.nil_append]
      have hexp := expandUnits_served (getOrganizationalUnitsRecursive conn n)
        t.children.items hkids [] t1
      rcases he : expandUnits (getOrganizationalUnitsRecursive conn n)
          (t.children.items.map OUTree.ou) [] t1 with ⟨run2, t2⟩
      rw [he] at hexp
      simp only at hexp
      subst hexp
      simp only [List.nil_append]
      rw [descend_of_success t hf, descendList_eq_flatMap]

/-- C9: on a finite tree served by the remote, with whatever child listings fail, the walker
returns an error exactly when a page of the root's own child listing fails; otherwise it
returns every child of the root, each followed by what is reached below it, where a
descendant whose own listing fails is itself in the result, adds nothing below itself, and
does not stop the expansion of the units listed beside it. -/
theorem getOrganizationalUnitsRecursive_swallows (conn : Conn) (t : OUTree) (fuel : Nat)
    (tr : Trace) (hserve : ServesUnits conn t) (hfuel : t.cost ≤ fuel) :
    (getOrganizationalUnitsRecursive conn fuel t.ou tr).1
        = .returned (match t.children.failure with
            | some err => .fail err
            | none => .ok (t.children.items.flatMap (fun k => k.ou :: k.descend)))
    ∧ ((∃ err, (getOrganizationalUnitsRecursive conn fuel t.ou tr).1 = .returned (.fail err))
        ↔ t.children.failure ≠ none)
    ∧ (∀ k : OUTree, k.children.failure ≠ none → k.descend = [])
    ∧ (∀ k : OUTree, k.children.failure = none →
        k.descend = k.children.items.flatMap (fun c => c.ou :: c.descend)) := by
  have h := getOrganizationalUnitsRecursive_served conn fuel t tr hfuel hserve
  refine ⟨?_, ?_, descend_of_failure, descend_of_success⟩
  · rw [h, OUTree.walk]
    cases hf : t.children.failure with
    | some err => rfl
    | none => simp only [descend_of_success t hf]
  · rw [h, OUTree.walk]
    cases hf : t.children.failure with
    | some err => simp
    | none => simp

/-- The example remote serves the child listings of the example tree. -/
theorem orgConn_servesUnits (broken : Bool) : ServesUnits (orgConn broken) (orgTree broken) := by
  intro n hn
  cases broken
  · simp only [orgTree, OUTree.nodes, OUTree.nodesPages, OUTree.nodesList, List.append_nil,
      List.nil_append, List.cons_append, List.mem_cons, List.mem_singleton, List.not_mem_nil,
      or_false, Bool.false_eq_true, ↓reduceIte] at hn
    rcases hn with h | h | h | h | h | h <;>
      subst h <;>
      simp only [OUTree.ou, OUTree.children, ServesUnitPages, List.map_cons, List.map_nil] <;>
      first
        | (intro tr; rfl)
        | exact ⟨fun tr => rfl, fun tr => rfl⟩
  · simp only [orgTree, OUTree.nodes, OUTree.nodesPages, OUTree.nodesList, List.append_nil,
      List.nil_append, List.cons_append, List.mem_cons, List.mem_singleton, List.not_mem_nil,
      or_false, ↓reduceIte] at hn
    rcases hn with h | h | h | h | h <;>
      subst h <;>
      simp only [OUTree.ou, OUTree.children, ServesUnitPages, List.map_cons, List.map_nil] <;>
      first
        | (intro tr; rfl)
        | exact ⟨fun tr => rfl, fun tr => rfl⟩

theorem getOrganizationalUnitsRecursive_swallows_witness :
    (getOrganizationalUnitsRecursive (orgConn true) 20 ⟨"r-root", "Root"⟩ []).1
      = .returned (.ok [⟨"ou-a", "a"⟩, ⟨"ou-a1", "a1"⟩, ⟨"ou-b", "b"⟩, ⟨"ou-c", "c"⟩]) :=
  (getOrganizationalUnitsRecursive_swallows (orgConn true) (orgTree true) 20 []
    (orgConn_servesUnits true) (by decide)).1

/-! ## Location resolver -/

theorem any_account_iff (accountId : String) (l : List Account) :
    l.any (fun account => accountId == account.Id) = true
      ↔ accountId ∈ l.map Account.Id := by
  rw [List.any_eq_true, List.mem_map]
  constructor
  · rintro ⟨x, hx, hxa⟩
    exact ⟨x, hx, (beq_iff_eq.1 hxa).symm⟩
  · rintro ⟨x, hx, hxa⟩
    exact ⟨x, hx, beq_iff_eq.2 hxa.symm⟩

/-- The paging loop over the accounts of one unit, against a served listing without failing
call: it answers whether the account is on one of the pages. -/
theorem searchAccountPages_served (conn : Conn) (accountId ou : String) (ps : Pages Account) :
    ∀ (token : Option String) (fuel : Nat) (tr : Trace),
      ServesAccountPages conn ou token ps → ps.failure = none → ps.calls ≤ fuel →
      (searchAccountPages conn accountId ou fuel token tr).1
        = .returned (.ok (decide (accountId ∈ ps.items.map Account.Id))) := by
  induction ps with
  | last items =>
    intro token fuel tr hs _ hf
    cases fuel with
    | zero => simp [Pages.calls] at hf
    | succ n =>
      simp only [ServesAccountPages] at hs
      by_cases hmem : accountId ∈ items.map Account.Id
      · have hany := (any_account_iff accountId items).2 hmem
        simp [searchAccountPages, hs tr, hany, Pages.items, hmem]
      · have hany : ¬ items.any (fun account => accountId == account.Id) = true :=
          fun h => hmem ((any_account_iff accountId items).1 h)
        simp only [searchAccountPages, hs tr, hany, Pages.items]
        simp [hmem]
  | more items next rest ih =>
    intro token fuel tr hs hnf hf
    cases fuel with
    | zero => simp [Pages.calls] at hf
    | succ n =>
      simp only [ServesAccountPages] at hs
      simp only [Pages.calls, Nat.add_le_add_iff_right] at hf
      simp only [Pages.failure] at hnf
      by_cases hmem : accountId ∈ items.map Account.Id
      · have hany := (any_account_iff accountId items).2 hmem
        have hall : accountId ∈ (items ++ rest.items).map Account.Id := by
          rw [List.map_append]; exact List.mem_append_left _ hmem
        simp only [searchAccountPages, hs.1 tr, hany, Pages.items]
        simp only [↓reduceIte, hall, decide_True]
      · have hany : ¬ items.any (fun account => accountId == account.Id) = true :=
          fun h => hmem ((any_account_iff accountId items).1 h)
        have hiff : (accountId ∈ (items ++ rest.items).map Account.Id)
            ↔ (accountId ∈ rest.items.map Account.Id) := by
          rw [List.map_append, List.mem_append]
          exact ⟨fun h => h.resolve_left hmem, Or.inr⟩
        simp only [searchAccountPages, hs.1 tr, hany, Pages.items, Bool.false_eq_true,
          ↓reduceIte]
        rw [ih (some next) n _ hs.2 hnf hf]
        simp only [hiff]
  | fail err =>
    intro token fuel tr _ hnf _
    simp [Pages.failure] at hnf

/-- An assignment to the catalog adds the assigned pair and nothing else. -/
theorem Catalog.mem_set (m : Catalog) (k v : String) (e : String × String)
    (he : e ∈ Catalog.set m k v) : e = (k, v) ∨ e ∈ m := by
  induction m with
  | nil =>
    simp only [Catalog.set, List.mem_singleton] at he
    exact Or.inl he
  | cons head rest ih =>
    obtain ⟨k1, v1⟩ := head
    simp only [Catalog.set] at he
    by_cases hk : k1 = k
    · rw [if_pos hk] at he
      rcases List.mem_cons.1 he with h | h
      · exact Or.inl h
      · exact Or.inr (List.mem_cons_of_mem _ h)
    · rw [if_neg hk] at he
      rcases List.mem_cons.1 he with h | h
      · exact Or.inr (h ▸ List.mem_cons_self _ _)
      · rcases ih h with h2 | h2
        · exact Or.inl h2
        · exact Or.inr (List.mem_cons_of_mem _ h2)

/-- After an assignment the assigned key is in the catalog. -/
theorem Catalog.set_self (m : Catalog) (k v : String) : (k, v) ∈ Catalog.set m k v := by
  induction m with
  | nil => simp [Catalog.set]
  | cons head rest ih =>
    obtain ⟨k1, v1⟩ := head
    simp only [Catalog.set]
    by_cases hk : k1 = k
    · rw [if_pos hk]; exact List.mem_cons_self _ _
    · rw [if_neg hk]; exact List.mem_cons_of_mem _ ih

/-- An assignment removes no key from the catalog. -/
theorem Catalog.set_keeps (m : Catalog) (k v : String) (e : String × String) (he : e ∈ m) :
    ∃ v1, (e.1, v1) ∈ Catalog.set m k v := by
  induction m with
  | nil => simp at he
  | cons head rest ih =>
    obtain ⟨k1, v1⟩ := head
    simp only [Catalog.set]
    by_cases hk : k1 = k
    · rw [if_pos hk]
      rcases List.mem_cons.1 he with h | h
      · subst h
        exact ⟨v, by simp [hk]⟩
      · exact ⟨e.2, List.mem_cons_of_mem _ h⟩
    · rw [if_neg hk]
      rcases List.mem_cons.1 he with h | h
      · subst h
        exact ⟨v1, List.mem_cons_self _ _⟩
      · obtain ⟨v2, h2⟩ := ih h
        exact ⟨v2, List.mem_cons_of_mem _ h2⟩

/-- Every entry of the finished catalog is a unit that was put into it. -/
theorem catalog_entries (ouSlice : List OrganizationalUnit) :
    ∀ (m : Catalog) (e : String × String),
      e ∈ ouSlice.foldl (fun m u => Catalog.set m u.Id u.Name) m →
      e ∈ m ∨ ∃ u ∈ ouSlice, e = (u.Id, u.Name) := by
  induction ouSlice with
  | nil => intro m e he; exact Or.inl he
  | cons u rest ih =>
    intro m e he
    simp only [List.foldl_cons] at he
    rcases ih _ e he with h | ⟨w, hw, hew⟩
    · rcases Catalog.mem_set m u.Id u.Name e h with h2 | h2
      · exact Or.inr ⟨u, List.mem_cons_self _ _, h2⟩
      · exact Or.inl h2
    · exact Or.inr ⟨w, List.mem_cons_of_mem _ hw, hew⟩

/-- Every key put into the catalog is a key of the finished catalog. -/
theorem catalog_keys (ouSlice : List OrganizationalUnit) :
    ∀ (m : Catalog) (k : String),
      ((∃ v, (k, v) ∈ m) ∨ ∃ u ∈ ouSlice, u.Id = k) →
      ∃ v, (k, v) ∈ ouSlice.foldl (fun m u => Catalog.set m u.Id u.Name) m := by
  induction ouSlice with
  | nil =>
    intro m k h
    rcases h with h | ⟨u, hu, -⟩
    · exact h
    · simp at hu
  | cons u rest ih =>
    intro m k h
    simp only [List.foldl_cons]
    apply ih
    rcases h with ⟨v, hv⟩ | ⟨w, hw, hwk⟩
    · exact Or.inl (Catalog.set_keeps m u.Id u.Name (k, v) hv)
    · rcases List.mem_cons.1 hw with h2 | h2
      · subst h2
        exact Or.inl ⟨w.Name, hwk ▸ Catalog.set_self m w.Id w.Name⟩
      · exact Or.inr ⟨w, h2, hwk⟩

/-- The loop over the catalog when no entry's unit lists the account: every unit is searched
to the end and the final `return` is reached. -/
theorem searchUnits_absent (conn : Conn) (accountId : String) (fuel : Nat) :
    ∀ (entries : List (String × String)) (tr : Trace),
      (∀ e ∈ entries, ∃ ps : Pages Account,
        ServesAccountPages conn e.1 none ps ∧ ps.failure = none ∧ ps.calls ≤ fuel
        ∧ accountId ∉ ps.items.map Account.Id) →
      (searchUnits conn accountId fuel entries tr).1
        = .returned ("", "", Errorf ("no OU found for account " ++ accountId ++ ".")) := by
  intro entries
  induction entries with
  | nil => intro tr _; rfl
  | cons head rest ih =>
    intro tr h
    obtain ⟨ou, name⟩ := head
    obtain ⟨ps, hs, hnf, hcalls, hmem⟩ := h (ou, name) (List.mem_cons_self _ _)
    have hp := searchAccountPages_served conn accountId ou ps none fuel tr hs hnf hcalls
    rcases hr : searchAccountPages conn accountId ou fuel none tr with ⟨run, t1⟩
    rw [hr] at hp
    simp only [hmem, decide_False] at hp
    subst hp
    simp only [searchUnits, hr]
    exact ih t1 (fun e he => h e (List.mem_cons_of_mem _ he))

/-- A common bound on the number of calls the membership listings of finitely many units
take. -/
theorem membership_calls_bound (conn : Conn) (accountId : String)
    (units : List OrganizationalUnit)
    (h : ∀ unit ∈ units, ∃ ps : Pages Account,
      ServesAccountPages conn unit.Id none ps ∧ ps.failure = none
      ∧ accountId ∉ ps.items.map Account.Id) :
    ∃ M, ∀ unit ∈ units, ∃ ps : Pages Account,
      ServesAccountPages conn unit.Id none ps ∧ ps.failure = none ∧ ps.calls ≤ M
      ∧ accountId ∉ ps.items.map Account.Id := by
  induction units with
  | nil => exact ⟨0, fun u hu => by simp at hu⟩
  | cons u rest ih =>
    obtain ⟨ps, hs, hnf, hmem⟩ := h u (List.mem_cons_self _ _)
    obtain ⟨M, hM⟩ := ih (fun w hw => h w (List.mem_cons_of_mem _ hw))
    refine ⟨max ps.calls M, ?_⟩
    intro w hw
    rcases List.mem_cons.1 hw with hwu | hwr
    · subst hwu
      exact ⟨ps, hs, hnf, le_max_left _ _, hmem⟩
    · obtain ⟨qs, h1, h2, h3, h4⟩ := hM w hwr
      exact ⟨qs, h1, h2, le_trans h3 (le_max_right _ _), h4⟩

/-- The paging loop of `getOrganizationalUnits` makes no membership listing, and when it
returns an error, that error is the answer to the last call it made. -/
theorem getOrganizationalUnitsLoop_trace (conn : Conn) (parentId : String) :
    ∀ (fuel : Nat) (token : Option String) (ouSlice : List OrganizationalUnit) (tr : Trace)
        (r : Run (Reply (List OrganizationalUnit))) (tr1 : Trace),
      getOrganizationalUnitsLoop conn parentId fuel token ouSlice tr = (r, tr1) →
      ∃ evs, tr1 = tr ++ evs ∧ (∀ ev ∈ evs, ev.isPoll = false)
        ∧ (∀ err, r = .returned (.fail err) →
            ∃ pre tok, evs = pre ++ [Event.listOrganizationalUnitsForParent parentId tok
                (.fail err)]
              ∧ conn.ListOrganizationalUnitsForParent (tr ++ pre) parentId tok = .fail err) := by
  intro fuel
  induction fuel with
  | zero =>
    intro token ouSlice tr r tr1 h
    simp only [getOrganizationalUnitsLoop, Prod.mk.injEq] at h
    refine ⟨[], by simp [h.2], by simp, ?_⟩
    intro err herr
    rw [← h.1] at herr
    simp at herr
  | succ n ih =>
    intro token ouSlice tr r tr1 h
    unfold getOrganizationalUnitsLoop at h
    simp only at h
    cases hreply : conn.ListOrganizationalUnitsForParent tr parentId token with
    | fail err =>
      rw [hreply] at h
      simp only [Prod.mk.injEq] at h
      refine ⟨[Event.listOrganizationalUnitsForParent parentId token (.fail err)],
        h.2.symm, ?_, ?_⟩
      · intro ev hev
        simp only [List.mem_singleton] at hev
        subst hev
        rfl
      · intro err2 herr
        rw [← h.1] at herr
        simp only [Run.returned.injEq, Reply.fail.injEq] at herr
        subst herr
        exact ⟨[], token, by simp, by simpa using hreply⟩
    | ok OUs =>
      rw [hreply] at h
      simp only at h
      cases htok : OUs.NextToken with
      | none =>
        rw [htok] at h
        simp only [Prod.mk.injEq] at h
        refine ⟨[Event.listOrganizationalUnitsForParent parentId token (.ok OUs)],
          h.2.symm, ?_, ?_⟩
        · intro ev hev
          simp only [List.mem_singleton] at hev
          subst hev
          rfl
        · intro err herr
          rw [← h.1] at herr
          simp at herr
      | some next =>
        rw [htok] at h
        simp only at h
        obtain ⟨evs, h1, h2, h3⟩ := ih _ _ _ r tr1 h
        refine ⟨Event.listOrganizationalUnitsForParent parentId token (.ok OUs) :: evs,
          by simpa using h1, ?_, ?_⟩
        · intro ev hev
          rcases List.mem_cons.1 hev with hev | hev
          · subst hev; rfl
          · exact h2 ev hev
        · intro err herr
          obtain ⟨pre, tok, hp1, hp2⟩ := h3 err herr
          exact ⟨Event.listOrganizationalUnitsForParent parentId token (.ok OUs) :: pre, tok,
            by simp [hp1], by simpa using hp2⟩

/-- The `range currentOUs` loop makes no membership listing when the recursive calls make
none. -/
theorem expandUnits_trace
    (recurse : OrganizationalUnit → Trace → Run (Reply (List OrganizationalUnit)) × Trace)
    (hrec : ∀ ou tr r tr1, recurse ou tr = (r, tr1) →
      ∃ evs, tr1 = tr ++ evs ∧ ∀ ev ∈ evs, ev.isPoll = false) :
    ∀ (l ous : List OrganizationalUnit) (tr : Trace) (r : Run (List OrganizationalUnit))
        (tr1 : Trace),
      expandUnits recurse l ous tr = (r, tr1) →
      ∃ evs, tr1 = tr ++ evs ∧ ∀ ev ∈ evs, ev.isPoll = false := by
  intro l
  induction l with
  | nil =>
    intro ous tr r tr1 h
    simp only [expandUnits, Prod.mk.injEq] at h
    exact ⟨[], by simp [h.2], by simp⟩
  | cons currentOU rest ih =>
    intro ous tr r tr1 h
    rcases hr : recurse currentOU tr with ⟨run, t1⟩
    obtain ⟨evs1, he1, hq1⟩ := hrec currentOU tr run t1 hr
    simp only [expandUnits, hr] at h
    cases run with
    | stuck why =>
      simp only [Prod.mk.injEq] at h
      exact ⟨evs1, by rw [← h.2, he1], hq1⟩
    | returned reply =>
      cases reply with
      | fail err =>
        simp only at h
        obtain ⟨evs2, he2, hq2⟩ := ih _ _ r tr1 h
        refine ⟨evs1 ++ evs2, by rw [he2, he1, List.append_assoc], ?_⟩
        intro ev hev
        rcases List.mem_append.1 hev with hev | hev
        · exact hq1 ev hev
        · exact hq2 ev hev
      | ok deepOus =>
        simp only at h
        obtain ⟨evs2, he2, hq2⟩ := ih _ _ r tr1 h
        refine ⟨evs1 ++ evs2, by rw [he2, he1, List.append_assoc], ?_⟩
        intro ev hev
        rcases List.mem_append.1 hev with hev | hev
        · exact hq1 ev hev
        · exact hq2 ev hev

/-- The walker makes no membership listing, and when it returns an error, that error is the
answer to the last call it made, a child listing of the unit it was started on. -/
theorem getOrganizationalUnitsRecursive_trace (conn : Conn) :
    ∀ (fuel : Nat) (ou : OrganizationalUnit) (tr : Trace)
        (r : Run (Reply (List OrganizationalUnit))) (tr1 : Trace),
      getOrganizationalUnitsRecursive conn fuel ou tr = (r, tr1) →
      ∃ evs, tr1 = tr ++ evs ∧ (∀ ev ∈ evs, ev.isPoll = false)
        ∧ (∀ err, r = .returned (.fail err) →
            ∃ pre tok, evs = pre ++ [Event.listOrganizationalUnitsForParent ou.Id tok
                (.fail err)]
              ∧ conn.ListOrganizationalUnitsForParent (tr ++ pre) ou.Id tok = .fail err) := by
  intro fuel
  induction fuel with
  | zero =>
    intro ou tr r tr1 h
    simp only [getOrganizationalUnitsRecursive, Prod.mk.injEq] at h
    refine ⟨[], by simp [h.2], by simp, ?_⟩
    intro err herr
    rw [← h.1] at herr
    simp at herr
  | succ n ih =>
    intro ou tr r tr1 h
    rcases hl : getOrganizationalUnitsLoop conn ou.Id n none [] tr with ⟨run, t1⟩
    obtain ⟨evs1, he1, hq1, hf1⟩ :=
      getOrganizationalUnitsLoop_trace conn ou.Id n none [] tr run t1 hl
    simp only [getOrganizationalUnitsRecursive, getOrganizationalUnits, hl] at h
    cases run with
    | stuck why =>
      simp only [Prod.mk.injEq] at h
      refine ⟨evs1, by rw [← h.2, he1], hq1, ?_⟩
      intro err herr
      rw [← h.1] at herr
      simp at herr
    | returned reply =>
      cases reply with
      | fail err =>
        simp only [Prod.mk.injEq] at h
        refine ⟨evs1, by rw [← h.2, he1], hq1, ?_⟩
        intro err2 herr
        rw [← h.1] at herr
        exact hf1 err2 herr
      | ok currentOUs =>
        simp only at h
        rcases hx : expandUnits (getOrganizationalUnitsRecursive conn n) currentOUs [] t1
          with ⟨run2, t2⟩
        obtain ⟨evs2, he2, hq2⟩ := expandUnits_trace (getOrganizationalUnitsRecursive conn n)
          (fun o t rr tt hh => by
            obtain ⟨e, h1, h2, -⟩ := ih o t rr tt hh
            exact ⟨e, h1, h2⟩) currentOUs [] t1 run2 t2 hx
        rw [hx] at h
        have hall : ∀ ev ∈ evs1 ++ evs2, ev.isPoll = false := by
          intro ev hev
          rcases List.mem_append.1 hev with hev | hev
          · exact hq1 ev hev
          · exact hq2 ev hev
        cases run2 with
        | stuck why =>
          simp only [Prod.mk.injEq] at h
          refine ⟨evs1 ++ evs2, by rw [← h.2, he2, he1, List.append_assoc], hall, ?_⟩
          intro err herr
          rw [← h.1] at herr
          simp at herr
        | returned ous =>
          simp only [Prod.mk.injEq] at h
          refine ⟨evs1 ++ evs2, by rw [← h.2, he2, he1, List.append_assoc], hall, ?_⟩
          intro err herr
          rw [← h.1] at herr
          simp at herr

/-- The paging loop over the accounts of one unit, when it returns: every page before the
last was listed without the account, and the result is decided by the last call: the error
of a failed call, `true` for a page that lists the account, `false` for a final page that
does not. -/
theorem searchAccountPages_returned (conn : Conn) (accountId ou : String) :
    ∀ (fuel : Nat) (token : Option String) (tr : Trace) (r : Reply Bool) (tr1 : Trace),
      searchAccountPages conn accountId ou fuel token tr = (.returned r, tr1) →
      ∃ pre tok reply,
        tr1 = tr ++ pre ++ [Event.listAccountsForParent ou tok reply]
        ∧ conn.ListAccountsForParent (tr ++ pre) ou tok = reply
        ∧ (∀ ev ∈ pre, ∃ t status, ev = Event.listAccountsForParent ou t (.ok status)
            ∧ accountId ∉ status.Accounts.map Account.Id)
        ∧ ((∃ err, reply = .fail err ∧ r = .fail err)
          ∨ (∃ status, reply = .ok status ∧ accountId ∈ status.Accounts.map Account.Id
              ∧ r = .ok true)
          ∨ (∃ status, reply = .ok status ∧ accountId ∉ status.Accounts.map Account.Id
              ∧ status.NextToken = none ∧ r = .ok false)) := by
  intro fuel
  induction fuel with
  | zero =>
    intro token tr r tr1 h
    simp [searchAccountPages] at h
  | succ n ih =>
    intro token tr r tr1 h
    unfold searchAccountPages at h
    simp only at h
    cases hreply : conn.ListAccountsForParent tr ou token with
    | fail err =>
      rw [hreply] at h
      simp only [Prod.mk.injEq, Run.returned.injEq] at h
      exact ⟨[], token, .fail err, by simp [← h.2], by simpa using hreply, by simp,
        Or.inl ⟨err, rfl, h.1.symm⟩⟩
    | ok aOutput =>
      rw [hreply] at h
      simp only at h
      by_cases hany : aOutput.Accounts.any (fun account => accountId == account.Id) = true
      · rw [if_pos hany] at h
        simp only [Prod.mk.injEq, Run.returned.injEq] at h
        exact ⟨[], token, .ok aOutput, by simp [← h.2], by simpa using hreply, by simp,
          Or.inr (Or.inl ⟨aOutput, rfl, (any_account_iff accountId _).1 hany, h.1.symm⟩)⟩
      · have hmem : accountId ∉ aOutput.Accounts.map Account.Id :=
          fun hm => hany ((any_account_iff accountId _).2 hm)
        rw [if_neg hany] at h
        cases htok : aOutput.NextToken with
        | none =>
          rw [htok] at h
          simp only [Prod.mk.injEq, Run.returned.injEq] at h
          exact ⟨[], token, .ok aOutput, by simp [← h.2], by simpa using hreply, by simp,
            Or.inr (Or.inr ⟨aOutput, rfl, hmem, htok, h.1.symm⟩)⟩
        | some next =>
          rw [htok] at h
          simp only at h
          obtain ⟨pre, tok, reply, h1, h2, h3, h4⟩ := ih _ _ r tr1 h
          refine ⟨Event.listAccountsForParent ou token (.ok aOutput) :: pre, tok, reply,
            by simpa using h1, by simpa using h2, ?_, h4⟩
          intro ev hev
          rcases List.mem_cons.1 hev with hev | hev
          · exact ⟨token, aOutput, hev, hmem⟩
          · exact h3 ev hev

/-- The loop over the catalog, when it returns: either no listing failed and no page listed
the account, and the result is the not-found diagnostic; or the last call is a failed
membership listing and the result is that failure with empty unit id and name; or the last
call is a membership page of a catalog unit that lists the account, and the result is that
unit. -/
theorem searchUnits_returned (conn : Conn) (accountId : String) (fuel : Nat) :
    ∀ (entries : List (String × String)) (tr : Trace) (res : String × String × Diagnostics)
        (tr1 : Trace),
      searchUnits conn accountId fuel entries tr = (.returned res, tr1) →
      ∃ evs, tr1 = tr ++ evs
        ∧ ((res = ("", "", Errorf ("no OU found for account " ++ accountId ++ "."))
            ∧ ∀ ev ∈ evs, ∃ ou t status, ev = Event.listAccountsForParent ou t (.ok status)
                ∧ accountId ∉ status.Accounts.map Account.Id)
          ∨ (∃ err pre ou tok,
              evs = pre ++ [Event.listAccountsForParent ou tok (.fail err)]
              ∧ conn.ListAccountsForParent (tr ++ pre) ou tok = .fail err
              ∧ res = ("", "", Errorf ("error reading accounts under OU " ++ ou ++ ": "
                  ++ err.Error)))
          ∨ (∃ pre ou name tok status, (ou, name) ∈ entries
              ∧ evs = pre ++ [Event.listAccountsForParent ou tok (.ok status)]
              ∧ conn.ListAccountsForParent (tr ++ pre) ou tok = .ok status
              ∧ accountId ∈ status.Accounts.map Account.Id
              ∧ res = (ou, name, []))) := by
  intro entries
  induction entries with
  | nil =>
    intro tr res tr1 h
    simp only [searchUnits, Prod.mk.injEq, Run.returned.injEq] at h
    exact ⟨[], by simp [h.2], Or.inl ⟨h.1.symm, by simp⟩⟩
  | cons head rest ih =>
    intro tr res tr1 h
    obtain ⟨ou, name⟩ := head
    rcases hr : searchAccountPages conn accountId ou fuel none tr with ⟨run, t1⟩
    cases run with
    | stuck why => simp [searchUnits, hr] at h
    | returned r =>
      obtain ⟨pre, tok, reply, h1, h2, h3, h4⟩ :=
        searchAccountPages_returned conn accountId ou fuel none tr r t1 hr
      rcases h4 with ⟨err, hrep, hres⟩ | ⟨status, hrep, hmem, hres⟩
          | ⟨status, hrep, hmem, -, hres⟩
      · subst hres
        subst hrep
        simp only [searchUnits, hr, Prod.mk.injEq, Run.returned.injEq] at h
        refine ⟨pre ++ [Event.listAccountsForParent ou tok (.fail err)],
          by rw [← h.2, h1, List.append_assoc], Or.inr (Or.inl ⟨err, pre, ou, tok, rfl, h2, h.1.symm⟩)⟩
      · subst hres
        subst hrep
        simp only [searchUnits, hr, Prod.mk.injEq, Run.returned.injEq] at h
        refine ⟨pre ++ [Event.listAccountsForParent ou tok (.ok status)],
          by rw [← h.2, h1, List.append_assoc],
          Or.inr (Or.inr ⟨pre, ou, name, tok, status, List.mem_cons_self _ _, rfl, h2, hmem,
            h.1.symm⟩)⟩
      · subst hres
        subst hrep
        simp only [searchUnits, hr] at h
        obtain ⟨evs, he, hcases⟩ := ih t1 res tr1 h
        refine ⟨pre ++ [Event.listAccountsForParent ou tok (.ok status)] ++ evs,
          by rw [he, h1]; simp, ?_⟩
        rcases hcases with ⟨hnf, hall⟩ | ⟨err, pre2, ou2, tok2, hev, hconn, hres⟩
            | ⟨pre2, ou2, name2, tok2, status2, hin, hev, hconn, hmem2, hres⟩
        · refine Or.inl ⟨hnf, ?_⟩
          intro ev hev
          rcases List.mem_append.1 hev with hev | hev
          · rcases List.mem_append.1 hev with hev | hev
            · obtain ⟨t, st, e1, e2⟩ := h3 ev hev
              exact ⟨ou, t, st, e1, e2⟩
            · simp only [List.mem_singleton] at hev
              exact ⟨ou, tok, status, hev, hmem⟩
          · exact hall ev hev
        · refine Or.inr (Or.inl ⟨err, pre ++ [Event.listAccountsForParent ou tok (.ok status)]
            ++ pre2, ou2, tok2, by rw [hev]; simp, ?_, hres⟩)
          rw [← hconn, h1]
          simp
        · refine Or.inr (Or.inr ⟨pre ++ [Event.listAccountsForParent ou tok (.ok status)]
            ++ pre2, ou2, name2, tok2, status2, List.mem_cons_of_mem _ hin,
            by rw [hev]; simp, ?_, hmem2, hres⟩)
          rw [← hconn, h1]
          simp

/-- The resolver, when it returns, on every remote: the result is the failure of the root
listing, of the walk or of a membership listing, with empty unit id and name and tied to the
failed call; or a unit, right after a membership page of that unit that lists the account;
or the not-found diagnostic, after a run in which no membership listing failed and no page
listed the account. -/
theorem findAccountOrganizationalUnit_returned (conn : Conn)
    (order : Catalog → List (String × String)) (accountId : String) (fuel : Nat)
    (tr : Trace) (res : String × String × Diagnostics) (tr1 : Trace)
    (h : findAccountOrganizationalUnit conn order accountId fuel tr = (.returned res, tr1)) :
    ∃ evs, tr1 = tr ++ evs
      ∧ ((∃ err, evs = [Event.listRoots (.fail err)] ∧ conn.ListRoots tr = .fail err
            ∧ res = ("", "", Errorf ("error reading OU root account " ++ accountId ++ ": "
                ++ err.Error)))
        ∨ (∃ err pre parentId tok,
            evs = pre ++ [Event.listOrganizationalUnitsForParent parentId tok (.fail err)]
            ∧ conn.ListOrganizationalUnitsForParent (tr ++ pre) parentId tok = .fail err
            ∧ res = ("", "", FromErr (.remote err)))
        ∨ (∃ err pre ou tok,
            evs = pre ++ [Event.listAccountsForParent ou tok (.fail err)]
            ∧ conn.ListAccountsForParent (tr ++ pre) ou tok = .fail err
            ∧ res = ("", "", Errorf ("error reading accounts under OU " ++ ou ++ ": "
                ++ err.Error)))
        ∨ (∃ pre ou name tok status,
            evs = pre ++ [Event.listAccountsForParent ou tok (.ok status)]
            ∧ conn.ListAccountsForParent (tr ++ pre) ou tok = .ok status
            ∧ accountId ∈ status.Accounts.map Account.Id
            ∧ res = (ou, name, []))
        ∨ (res = ("", "", Errorf ("no OU found for account " ++ accountId ++ "."))
            ∧ ∀ ev ∈ evs, ∀ ou t reply, ev = Event.listAccountsForParent ou t reply →
                ∃ status, reply = .ok status
                  ∧ accountId ∉ status.Accounts.map Account.Id)) := by
  unfold findAccountOrganizationalUnit at h
  simp only at h
  cases hroots : conn.ListRoots tr with
  | fail err =>
    rw [hroots] at h
    simp only [Prod.mk.injEq, Run.returned.injEq] at h
    exact ⟨[Event.listRoots (.fail err)], h.2.symm, Or.inl ⟨err, rfl, rfl, h.1.symm⟩⟩
  | ok status =>
    rw [hroots] at h
    simp only at h
    cases hr : status.Roots with
    | nil =>
      rw [hr] at h
      simp at h
    | cons root others =>
      rw [hr] at h
      simp only at h
      rcases hw : getOrganizationalUnitsRecursive conn fuel ⟨root.Id, root.Name⟩
          (tr ++ [Event.listRoots (.ok status)]) with ⟨run, t2⟩
      obtain ⟨wevs, hwe, hwq, hwf⟩ := getOrganizationalUnitsRecursive_trace conn fuel
        ⟨root.Id, root.Name⟩ (tr ++ [Event.listRoots (.ok status)]) run t2 hw
      rw [hw] at h
      cases run with
      | stuck why => simp at h
      | returned reply =>
        cases reply with
        | fail err =>
          simp only [Prod.mk.injEq, Run.returned.injEq] at h
          obtain ⟨pre, tok, hp1, hp2⟩ := hwf err rfl
          refine ⟨[Event.listRoots (.ok status)] ++ wevs, by rw [← h.2, hwe, List.append_assoc],
            Or.inr (Or.inl ⟨err, [Event.listRoots (.ok status)] ++ pre, root.Id, tok,
              by rw [hp1, List.append_assoc], ?_, h.1.symm⟩)⟩
          rw [← hp2]
          simp
        | ok ouSlice =>
          simp only at h
          obtain ⟨sevs, hse, hcases⟩ := searchUnits_returned conn accountId fuel _ t2 res tr1 h
          refine ⟨[Event.listRoots (.ok status)] ++ wevs ++ sevs,
            by rw [hse, hwe]; simp, ?_⟩
          rcases hcases with ⟨hnf, hall⟩ | ⟨err, pre2, ou2, tok2, hev, hconn, hres⟩
              | ⟨pre2, ou2, name2, tok2, status2, -, hev, hconn, hmem2, hres⟩
          · refine Or.inr (Or.inr (Or.inr (Or.inr ⟨hnf, ?_⟩)))
            intro ev hev ou t reply heq
            rcases List.mem_append.1 hev with hev | hev
            · have hq : ev.isPoll = false := by
                rcases List.mem_append.1 hev with hev | hev
                · simp only [List.mem_singleton] at hev
                  subst hev
                  rfl
                · exact hwq ev hev
              rw [heq] at hq
              simp [Event.isPoll] at hq
            · obtain ⟨ou3, t3, st3, e1, e2⟩ := hall ev hev
              rw [heq] at e1
              simp only [Event.listAccountsForParent.injEq] at e1
              exact ⟨st3, e1.2.2, e2⟩
          · refine Or.inr (Or.inr (Or.inl ⟨err, [Event.listRoots (.ok status)] ++ wevs ++ pre2,
              ou2, tok2, by rw [hev]; simp, ?_, hres⟩))
            rw [← hconn, hwe]
            simp
          · refine Or.inr (Or.inr (Or.inr (Or.inl ⟨[Event.listRoots (.ok status)] ++ wevs
              ++ pre2, ou2, name2, tok2, status2, by rw [hev]; simp, ?_, hmem2, hres⟩)))
            rw [← hconn, hwe]
            simp

/-- C6, evaluated on three remotes for the account `999999999999`, which no unit lists. On
the example organization the resolver returns the not-found diagnostic. On a remote whose
child listing of the root fails with an error that reads like that diagnostic, the walker
error is passed on and the result is the very same value, so the not-found result is not
told apart from this generic failure. On a remote whose membership listings fail, the result
is the listing failure and not the not-found diagnostic. -/
theorem findAccountOrganizationalUnit_signal_not_distinct :
    (findAccountOrganizationalUnit (orgConn false) List.reverse "999999999999" 30 []).1
        = .returned ("", "", Errorf "no OU found for account 999999999999.")
    ∧ echoConn.ListOrganizationalUnitsForParent
          [Event.listRoots (.ok ⟨[⟨"r-root", "Root"⟩]⟩)] "r-root" none
        = .fail (.plain "no OU found for account 999999999999.")
    ∧ (findAccountOrganizationalUnit echoConn List.reverse "999999999999" 30 []).1
        = (findAccountOrganizationalUnit (orgConn false) List.reverse "999999999999" 30 []).1
    ∧ (findAccountOrganizationalUnit brokenListConn List.reverse "999999999999" 30 []).1
        = .returned ("", "",
            Errorf "error reading accounts under OU ou-root-ccc: request timed out")
    ∧ (findAccountOrganizationalUnit brokenListConn List.reverse "999999999999" 30 []).1
        ≠ .returned ("", "", Errorf "no OU found for account 999999999999.") := by
  refine ⟨?_, ?_, ?_, ?_, ?_⟩ <;> decide

/-- C6, amended: when the root listing, the walk and the membership listing of every unit
of the catalog (the root and every unit the walker returns) succeed and no unit lists the
account, the resolver returns an empty unit id and an empty unit name with the single error
diagnostic `no OU found for account <id>.`. On every run that returns, whatever fails: a
failed root listing, walk or membership listing gives empty id and name with the diagnostic
of that failed call; a unit is returned only right after a membership page of that unit
that lists the account, so a non-empty unit id is never returned for an account that no page
lists; and the not-found diagnostic is returned only after a run in which no membership
listing failed and no page listed the account, or when the failed child listing of the root
carried that very text, which the resolver passes on unchanged. -/
theorem findAccountOrganizationalUnit_not_found (conn : Conn)
    (order : Catalog → List (String × String)) (accountId : String) :
    (∀ (root : Root) (others : List Root) (ouSlice : List OrganizationalUnit) (N : Nat),
      (∀ tr, conn.ListRoots tr = .ok ⟨root :: others⟩) →
      (∀ fuel, N ≤ fuel → ∀ tr,
        (getOrganizationalUnitsRecursive conn fuel ⟨root.Id, root.Name⟩ tr).1
          = .returned (.ok ouSlice)) →
      (∀ unit ∈ (⟨root.Id, root.Name⟩ : OrganizationalUnit) :: ouSlice,
        ∃ ps : Pages Account, ServesAccountPages conn unit.Id none ps ∧ ps.failure = none
          ∧ accountId ∉ ps.items.map Account.Id) →
      (∀ m, (order m).Perm m) →
      ∃ M, ∀ fuel, M ≤ fuel → ∀ tr,
        (findAccountOrganizationalUnit conn order accountId fuel tr).1
          = .returned ("", "", Errorf ("no OU found for account " ++ accountId ++ ".")))
    ∧ (∀ (fuel : Nat) (tr : Trace) (res : String × String × Diagnostics) (tr1 : Trace),
      findAccountOrganizationalUnit conn order accountId fuel tr = (.returned res, tr1) →
      ∃ evs, tr1 = tr ++ evs
        ∧ ((∃ err, evs = [Event.listRoots (.fail err)] ∧ conn.ListRoots tr = .fail err
              ∧ res = ("", "", Errorf ("error reading OU root account " ++ accountId ++ ": "
                  ++ err.Error)))
          ∨ (∃ err pre parentId tok,
              evs = pre ++ [Event.listOrganizationalUnitsForParent parentId tok (.fail err)]
              ∧ conn.ListOrganizationalUnitsForParent (tr ++ pre) parentId tok = .fail err
              ∧ res = ("", "", FromErr (.remote err)))
          ∨ (∃ err pre ou tok,
              evs = pre ++ [Event.listAccountsForParent ou tok (.fail err)]
              ∧ conn.ListAccountsForParent (tr ++ pre) ou tok = .fail err
              ∧ res = ("", "", Errorf ("error reading accounts under OU " ++ ou ++ ": "
                  ++ err.Error)))
          ∨ (∃ pre ou name tok status,
              evs = pre ++ [Event.listAccountsForParent ou tok (.ok status)]
              ∧ conn.ListAccountsForParent (tr ++ pre) ou tok = .ok status
              ∧ accountId ∈ status.Accounts.map Account.Id
              ∧ res = (ou, name, []))
          ∨ (res = ("", "", Errorf ("no OU found for account " ++ accountId ++ "."))
              ∧ ∀ ev ∈ evs, ∀ ou t reply, ev = Event.listAccountsForParent ou t reply →
                  ∃ status, reply = .ok status
                    ∧ accountId ∉ status.Accounts.map Account.Id)))
    ∧ (∀ (fuel : Nat) (tr : Trace) (res : String × String × Diagnostics) (tr1 : Trace),
      findAccountOrganizationalUnit conn order accountId fuel tr = (.returned res, tr1) →
      res.1 ≠ "" →
      res.2.2 = []
      ∧ ∃ pre tok status,
          tr1 = tr ++ pre ++ [Event.listAccountsForParent res.1 tok (.ok status)]
          ∧ conn.ListAccountsForParent (tr ++ pre) res.1 tok = .ok status
          ∧ accountId ∈ status.Accounts.map Account.Id)
    ∧ (∀ (fuel : Nat) (tr tr1 : Trace),
      findAccountOrganizationalUnit conn order accountId fuel tr
        = (.returned ("", "", Errorf ("no OU found for account " ++ accountId ++ ".")), tr1) →
      ∃ evs, tr1 = tr ++ evs
        ∧ ((∀ ev ∈ evs, ∀ ou t reply, ev = Event.listAccountsForParent ou t reply →
              ∃ status, reply = .ok status ∧ accountId ∉ status.Accounts.map Account.Id)
          ∨ (∃ err pre parentId tok,
              evs = pre ++ [Event.listOrganizationalUnitsForParent parentId tok (.fail err)]
              ∧ conn.ListOrganizationalUnitsForParent (tr ++ pre) parentId tok = .fail err
              ∧ err.Error = "no OU found for account " ++ accountId ++ "."))) := by
  refine ⟨?_, ?_, ?_, ?_⟩
  · intro root others ouSlice N hroots hwalk habsent horder
    obtain ⟨M, hM⟩ := membership_calls_bound conn accountId _ habsent
    refine ⟨max N M, ?_⟩
    intro fuel hfuel tr
    have hw := hwalk fuel (le_trans (le_max_left _ _) hfuel)
      (tr ++ [Event.listRoots (.ok ⟨root :: others⟩)])
    rcases hr : getOrganizationalUnitsRecursive conn fuel ⟨root.Id, root.Name⟩
        (tr ++ [Event.listRoots (.ok ⟨root :: others⟩)]) with ⟨run, t2⟩
    rw [hr] at hw
    simp only at hw
    subst hw
    simp only [findAccountOrganizationalUnit, hroots tr, hr]
    apply searchUnits_absent
    intro e he
    have he2 := (horder _).mem_iff.1 he
    have hunit : ∃ unit ∈ (⟨root.Id, root.Name⟩ : OrganizationalUnit) :: ouSlice,
        unit.Id = e.1 := by
      rcases catalog_entries ouSlice _ e he2 with h | ⟨u, hu, heu⟩
      · simp only [Catalog.set, List.mem_singleton] at h
        exact ⟨⟨root.Id, root.Name⟩, List.mem_cons_self _ _, by rw [h]⟩
      · exact ⟨u, List.mem_cons_of_mem _ hu, by rw [heu]⟩
    obtain ⟨unit, hmem, hid⟩ := hunit
    obtain ⟨ps, h1, h2, h3, h4⟩ := hM unit hmem
    exact ⟨ps, hid ▸ h1, h2, le_trans h3 (le_trans (le_max_right _ _) hfuel), h4⟩
  · intro fuel tr res tr1 h
    exact findAccountOrganizationalUnit_returned conn order accountId fuel tr res tr1 h
  · intro fuel tr res tr1 h hne
    obtain ⟨evs, he, hcases⟩ :=
      findAccountOrganizationalUnit_returned conn order accountId fuel tr res tr1 h
    rcases hcases with ⟨err, -, -, hres⟩ | ⟨err, pre, parentId, tok, -, -, hres⟩
        | ⟨err, pre, ou, tok, -, -, hres⟩ | ⟨pre, ou, name, tok, status, hev, hconn, hmem, hres⟩
        | ⟨hres, -⟩
    · rw [hres] at hne; exact absurd rfl hne
    · rw [hres] at hne; exact absurd rfl hne
    · rw [hres] at hne; exact absurd rfl hne
    · subst hres
      exact ⟨rfl, pre, tok, status, by rw [he, hev, List.append_assoc], hconn, hmem⟩
    · rw [hres] at hne; exact absurd rfl hne
  · intro fuel tr tr1 h
    obtain ⟨evs, he, hcases⟩ :=
      findAccountOrganizationalUnit_returned conn order accountId fuel tr _ tr1 h
    refine ⟨evs, he, ?_⟩
    rcases hcases with ⟨err, -, -, hres⟩ | ⟨err, pre, parentId, tok, hev, hconn, hres⟩
        | ⟨err, pre, ou, tok, -, -, hres⟩ | ⟨pre, ou, name, tok, status, -, -, -, hres⟩
        | ⟨-, hall⟩
    · have := congrArg (fun r : String × String × Diagnostics =>
        r.2.2.map (fun dg => dg.Summary.data)) hres
      simp [Errorf, String.data_append] at this
    · refine Or.inr ⟨err, pre, parentId, tok, hev, hconn, ?_⟩
      have := congrArg (fun r : String × String × Diagnostics =>
        r.2.2.map (fun dg => dg.Summary)) hres
      simp only [Errorf, FromErr, GoError.Error, List.map_cons, List.map_nil,
        List.cons.injEq, and_true] at this
      exact this.symm
    · have := congrArg (fun r : String × String × Diagnostics =>
        r.2.2.map (fun dg => dg.Summary.data)) hres
      simp [Errorf, String.data_append] at this
    · have := congrArg (fun r : String × String × Diagnostics => r.2.2.length) hres
      simp [Errorf] at this
    · exact Or.inl hall

/-- The loop over the catalog when the account is listed by the unit `uid`, every entry under
that key carries the name `uname`, and no other entry's unit lists the account. -/
theorem searchUnits_present (conn : Conn) (accountId : String) (fuel : Nat)
    (uid uname : String) (psu : Pages Account)
    (hsu : ServesAccountPages conn uid none psu) (hnfu : psu.failure = none)
    (hcu : psu.calls ≤ fuel) (hin : accountId ∈ psu.items.map Account.Id) :
    ∀ (entries : List (String × String)) (tr : Trace),
      (∃ e ∈ entries, e.1 = uid) →
      (∀ e ∈ entries, e.1 = uid → e.2 = uname) →
      (∀ e ∈ entries, e.1 ≠ uid → ∃ ps : Pages Account,
        ServesAccountPages conn e.1 none ps ∧ ps.failure = none ∧ ps.calls ≤ fuel
        ∧ accountId ∉ ps.items.map Account.Id) →
      (searchUnits conn accountId fuel entries tr).1 = .returned (uid, uname, []) := by
  intro entries
  induction entries with
  | nil =>
    intro tr hex _ _
    obtain ⟨e, he, -⟩ := hex
    simp at he
  | cons head rest ih =>
    intro tr hex hname hother
    obtain ⟨ou, name⟩ := head
    by_cases hou : ou = uid
    · subst hou
      have hn : name = uname := hname (ou, name) (List.mem_cons_self _ _) rfl
      subst hn
      have hp := searchAccountPages_served conn accountId ou psu none fuel tr hsu hnfu hcu
      rcases hr : searchAccountPages conn accountId ou fuel none tr with ⟨run, t1⟩
      rw [hr] at hp
      simp only [hin, decide_True] at hp
      subst hp
      simp only [searchUnits, hr]
    · obtain ⟨ps, hs, hnf, hcalls, hmem⟩ := hother (ou, name) (List.mem_cons_self _ _) hou
      have hp := searchAccountPages_served conn accountId ou ps none fuel tr hs hnf hcalls
      rcases hr : searchAccountPages conn accountId ou fuel none tr with ⟨run, t1⟩
      rw [hr] at hp
      simp only [hmem, decide_False] at hp
      subst hp
      simp only [searchUnits, hr]
      refine ih t1 ?_ (fun e he => hname e (List.mem_cons_of_mem _ he))
        (fun e he => hother e (List.mem_cons_of_mem _ he))
      obtain ⟨e, he, hek⟩ := hex
      rcases List.mem_cons.1 he with h | h
      · subst h
        exact absurd hek hou
      · exact ⟨e, h, hek⟩

/-- What the remote serves for one unit and one token is one listing. -/
theorem servesAccountPages_unique (conn : Conn) (parentId : String) (ps : Pages Account) :
    ∀ (token : Option String) (qs : Pages Account),
      ServesAccountPages conn parentId token ps → ServesAccountPages conn parentId token qs →
      ps = qs := by
  induction ps with
  | last items =>
    intro token qs hp hq
    simp only [ServesAccountPages] at hp
    cases qs with
    | last items2 =>
      simp only [ServesAccountPages] at hq
      have := (hp []).symm.trans (hq [])
      simp only [Reply.ok.injEq, ListAccountsForParentOutput.mk.injEq, and_true] at this
      rw [this]
    | more items2 next2 rest2 =>
      simp only [ServesAccountPages] at hq
      have := (hp []).symm.trans (hq.1 [])
      simp at this
    | fail err2 =>
      simp only [ServesAccountPages] at hq
      have := (hp []).symm.trans (hq [])
      simp at this
  | more items next rest ih =>
    intro token qs hp hq
    simp only [ServesAccountPages] at hp
    cases qs with
    | last items2 =>
      simp only [ServesAccountPages] at hq
      have := (hp.1 []).symm.trans (hq [])
      simp at this
    | more items2 next2 rest2 =>
      simp only [ServesAccountPages] at hq
      have := (hp.1 []).symm.trans (hq.1 [])
      simp only [Reply.ok.injEq, ListAccountsForParentOutput.mk.injEq, Option.some.injEq] at this
      obtain ⟨h1, h2⟩ := this
      subst h1
      subst h2
      rw [ih (some next) rest2 hp.2 hq.2]
    | fail err2 =>
      simp only [ServesAccountPages] at hq
      have := (hp.1 []).symm.trans (hq [])
      simp at this
  | fail err =>
    intro token qs hp hq
    simp only [ServesAccountPages] at hp
    cases qs with
    | last items2 =>
      simp only [ServesAccountPages] at hq
      have := (hp []).symm.trans (hq [])
      simp at this
    | more items2 next2 rest2 =>
      simp only [ServesAccountPages] at hq
      have := (hp []).symm.trans (hq.1 [])
      simp at this
    | fail err2 =>
      simp only [ServesAccountPages] at hq
      have := (hp []).symm.trans (hq [])
      simp only [Reply.fail.injEq] at this
      rw [this]

theorem nodesList_append (xs ys : List OUTree) :
    OUTree.nodesList (xs ++ ys) = OUTree.nodesList xs ++ OUTree.nodesList ys := by
  induction xs with
  | nil => simp [OUTree.nodesList]
  | cons x rest ih => simp [OUTree.nodesList, ih]

theorem nodesPages_eq (ps : Pages OUTree) (hnf : ps.failure = none) :
    OUTree.nodesPages ps = OUTree.nodesList ps.items := by
  induction ps with
  | last items => simp [OUTree.nodesPages, Pages.items]
  | more items token rest ih =>
    simp only [Pages.failure] at hnf
    simp [OUTree.nodesPages, Pages.items, nodesList_append, ih hnf]
  | fail err => simp [Pages.failure] at hnf

theorem descendList_eq_nodes (ts : List OUTree)
    (h : ∀ k ∈ ts, k.ou :: k.descend = k.nodes.map OUTree.ou) :
    OUTree.descendList ts = (OUTree.nodesList ts).map OUTree.ou := by
  induction ts with
  | nil => simp [OUTree.descendList, OUTree.nodesList]
  | cons t rest ih =>
    have ht := h t (List.mem_cons_self _ _)
    have hrest := ih (fun k hk => h k (List.mem_cons_of_mem _ hk))
    simp only [OUTree.descendList, OUTree.nodesList, List.map_append, ← ht, hrest]

/-- When no child listing fails, the root and what the walk reaches are all the units of the
tree. -/
theorem descend_eq_nodes :
    ∀ (n : Nat) (t : OUTree), t.cost ≤ n →
      (∀ m ∈ t.nodes, m.children.failure = none) →
      t.ou :: t.descend = t.nodes.map OUTree.ou := by
  intro n
  induction n with
  | zero =>
    intro t hcost
    cases t with
    | node ou accounts children => simp [OUTree.cost] at hcost
  | succ n ih =>
    intro t hcost hnf
    have hown := hnf t (nodes_self t)
    have hkids : ∀ k ∈ t.children.items, k.ou :: k.descend = k.nodes.map OUTree.ou := by
      intro k hk
      refine ih k ?_ (fun m hm => hnf m (nodes_of_child t k hk m hm))
      cases t with
      | node ou accounts children =>
        simp only [OUTree.children] at hk
        have := cost_lt_costPages children k hk
        simp only [OUTree.cost] at hcost
        omega
    cases t with
    | node ou accounts children =>
      simp only [OUTree.children] at hown hkids
      simp only [OUTree.ou, OUTree.descend, hown, OUTree.nodes, List.map_cons,
        descendPages_eq, nodesPages_eq children hown, descendList_eq_nodes _ hkids]

theorem calls_le_sum (ns : List OUTree) (n : OUTree) (hn : n ∈ ns) :
    n.accounts.calls ≤ (ns.map (fun m => m.accounts.calls)).sum := by
  induction ns with
  | nil => simp at hn
  | cons head rest ih =>
    simp only [List.map_cons, List.sum_cons]
    rcases List.mem_cons.1 hn with h | h
    · subst h; omega
    · have := ih h; omega

/-- C5: on a finite tree served by a remote on which no listing call fails, with unit and
membership listings split over any pages, if the account is in the direct membership of
exactly one unit among the root and all of its descendants, the resolver returns that unit's
id and name and no diagnostics, whatever the order in which the catalog is iterated. -/
theorem findAccountOrganizationalUnit_unique (conn : Conn)
    (order : Catalog → List (String × String)) (accountId : String) (t u : OUTree)
    (pre post : List OUTree) (others : List Root) (fuel : Nat) (tr : Trace)
    (hroots : ∀ tr, conn.ListRoots tr = .ok ⟨⟨t.ou.Id, t.ou.Name⟩ :: others⟩)
    (hunits : ServesUnits conn t) (hmembers : ServesMembers conn t)
    (hnofail : NoListingFails t)
    (hnodes : t.nodes = pre ++ u :: post)
    (hin : u.hasMember accountId)
    (hout : ∀ w ∈ pre ++ post, ¬ w.hasMember accountId)
    (horder : ∀ m, (order m).Perm m)
    (hfuel : t.resolveCost ≤ fuel) :
    (findAccountOrganizationalUnit conn order accountId fuel tr).1
      = .returned (u.ou.Id, u.ou.Name, []) := by
  have hu : u ∈ t.nodes := by rw [hnodes]; simp
  have hcost : t.cost ≤ fuel := le_trans (Nat.le_add_right _ _) hfuel
  have hcalls : ∀ n ∈ t.nodes, n.accounts.calls ≤ fuel := fun n hn =>
    le_trans (calls_le_sum t.nodes n hn) (le_trans (Nat.le_add_left _ _) hfuel)
  -- a unit with the id of `u` is `u`
  have hsame : ∀ n ∈ t.nodes, n.ou.Id = u.ou.Id → n = u := by
    intro n hn hid
    have h1 := hmembers n hn
    have h2 := hmembers u hu
    rw [hid] at h1
    have hacc := servesAccountPages_unique conn u.ou.Id n.accounts none u.accounts h1 h2
    have hmem : n.hasMember accountId := by
      simp only [OUTree.hasMember, hacc]
      exact hin
    rw [hnodes] at hn
    rcases List.mem_append.1 hn with h | h
    · exact absurd hmem (hout n (List.mem_append_left _ h))
    · rcases List.mem_cons.1 h with h | h
      · exact h
      · exact absurd hmem (hout n (List.mem_append_right _ h))
  have hother : ∀ n ∈ t.nodes, n.ou.Id ≠ u.ou.Id → ¬ n.hasMember accountId := by
    intro n hn hid
    rw [hnodes] at hn
    rcases List.mem_append.1 hn with h | h
    · exact hout n (List.mem_append_left _ h)
    · rcases List.mem_cons.1 h with h | h
      · exact absurd (by rw [h]) hid
      · exact hout n (List.mem_append_right _ h)
  -- the walker returns every descendant
  have hrootnf : t.children.failure = none := (hnofail t (nodes_self t)).1
  have hw := getOrganizationalUnitsRecursive_served conn fuel t
    (tr ++ [Event.listRoots (.ok ⟨⟨t.ou.Id, t.ou.Name⟩ :: others⟩)]) hcost hunits
  simp only [OUTree.walk, hrootnf] at hw
  have hall := descend_eq_nodes t.cost t (le_refl _) (fun m hm => (hnofail m hm).1)
  have hou : (⟨t.ou.Id, t.ou.Name⟩ : OrganizationalUnit) = t.ou := rfl
  rcases hr : getOrganizationalUnitsRecursive conn fuel ⟨t.ou.Id, t.ou.Name⟩
      (tr ++ [Event.listRoots (.ok ⟨⟨t.ou.Id, t.ou.Name⟩ :: others⟩)]) with ⟨run, t2⟩
  rw [hou] at hr
  rw [hr] at hw
  simp only at hw
  subst hw
  simp only [findAccountOrganizationalUnit, hroots tr, hou, hr]
  -- every entry of the catalog is a unit of the tree
  have hentry : ∀ e ∈ order (t.descend.foldl (fun m w => Catalog.set m w.Id w.Name)
      (Catalog.set [] t.ou.Id t.ou.Name)), ∃ n ∈ t.nodes, e = (n.ou.Id, n.ou.Name) := by
    intro e he
    have he2 := (horder _).mem_iff.1 he
    have hunit : ∃ w ∈ t.ou :: t.descend, e = (w.Id, w.Name) := by
      rcases catalog_entries t.descend _ e he2 with h | ⟨w, hw, hew⟩
      · simp only [Catalog.set, List.mem_singleton] at h
        exact ⟨t.ou, List.mem_cons_self _ _, h⟩
      · exact ⟨w, List.mem_cons_of_mem _ hw, hew⟩
    obtain ⟨w, hw, hew⟩ := hunit
    rw [hall, List.mem_map] at hw
    obtain ⟨n, hn, hnw⟩ := hw
    exact ⟨n, hn, by rw [hew, hnw]⟩
  apply searchUnits_present conn accountId fuel u.ou.Id u.ou.Name u.accounts
    (hmembers u hu) (hnofail u hu).2 (hcalls u hu) hin
  · have hkey : ∃ v, (u.ou.Id, v) ∈ t.descend.foldl (fun m w => Catalog.set m w.Id w.Name)
        (Catalog.set [] t.ou.Id t.ou.Name) := by
      apply catalog_keys
      have hmem : u.ou ∈ t.ou :: t.descend := by
        rw [hall]; exact List.mem_map.2 ⟨u, hu, rfl⟩
      rcases List.mem_cons.1 hmem with h | h
      · exact Or.inl ⟨t.ou.Name, by rw [h]; exact Catalog.set_self [] t.ou.Id t.ou.Name⟩
      · exact Or.inr ⟨u.ou, h, rfl⟩
    obtain ⟨v, hv⟩ := hkey
    exact ⟨(u.ou.Id, v), (horder _).mem_iff.2 hv, rfl⟩
  · intro e he hid
    obtain ⟨n, hn, hen⟩ := hentry e he
    subst hen
    simp only at hid
    rw [hsame n hn hid]
  · intro e he hid
    obtain ⟨n, hn, hen⟩ := hentry e he
    subst hen
    simp only at hid
    exact ⟨n.accounts, hmembers n hn, (hnofail n hn).2, hcalls n hn, hother n hn hid⟩

/-- The example remote serves the membership listings of the example tree. -/
theorem orgConn_servesMembers (broken : Bool) :
    ServesMembers (orgConn broken) (orgTree broken) := by
  intro n hn
  cases broken
  · simp only [orgTree, OUTree.nodes, OUTree.nodesPages, OUTree.nodesList, List.append_nil,
      List.nil_append, List.cons_append, List.mem_cons, List.mem_singleton, List.not_mem_nil,
      or_false, Bool.false_eq_true, ↓reduceIte] at hn
    rcases hn with h | h | h | h | h | h <;>
      subst h <;>
      simp only [OUTree.ou, OUTree.accounts, ServesAccountPages] <;>
      first
        | (intro tr; rfl)
        | exact ⟨fun tr => rfl, fun tr => rfl⟩
  · simp only [orgTree, OUTree.nodes, OUTree.nodesPages, OUTree.nodesList, List.append_nil,
      List.nil_append, List.cons_append, List.mem_cons, List.mem_singleton, List.not_mem_nil,
      or_false, ↓reduceIte] at hn
    rcases hn with h | h | h | h | h <;>
      subst h <;>
      simp only [OUTree.ou, OUTree.accounts, ServesAccountPages] <;>
      first
        | (intro tr; rfl)
        | exact ⟨fun tr => rfl, fun tr => rfl⟩

/-- No listing of the unbroken example tree fails. -/
theorem orgTree_noListingFails : NoListingFails (orgTree false) := by
  intro n hn
  simp only [orgTree, OUTree.nodes, OUTree.nodesPages, OUTree.nodesList, List.append_nil,
    List.nil_append, List.cons_append, List.mem_cons, List.mem_singleton, List.not_mem_nil,
    or_false, Bool.false_eq_true, ↓reduceIte] at hn
  rcases hn with h | h | h | h | h | h <;> subst h <;> exact ⟨rfl, rfl⟩

theorem findAccountOrganizationalUnit_unique_witness :
    (findAccountOrganizationalUnit (orgConn false) List.reverse "111111111111" 30 []).1
        = .returned ("ou-a1", "a1", [])
    ∧ (findAccountOrganizationalUnit (orgConn false) (fun m => m) "111111111111" 30 []).1
        = .returned ("ou-a1", "a1", []) :=
  ⟨findAccountOrganizationalUnit_unique (orgConn false) List.reverse "111111111111"
      (orgTree false)
      (.node ⟨"ou-a1", "a1"⟩
        (.more [⟨"222222222222", some "ACTIVE"⟩] "members-2"
          (.last [⟨"111111111111", some "ACTIVE"⟩]))
        (.last []))
      ((orgTree false).nodes.take 2) ((orgTree false).nodes.drop 3) [] 30 []
      (fun _ => rfl) (orgConn_servesUnits false) (orgConn_servesMembers false)
      orgTree_noListingFails rfl (by decide) (by decide)
      (fun m => List.reverse_perm m) (by decide),
    findAccountOrganizationalUnit_unique (orgConn false) (fun m => m) "111111111111"
      (orgTree false)
      (.node ⟨"ou-a1", "a1"⟩
        (.more [⟨"222222222222", some "ACTIVE"⟩] "members-2"
          (.last [⟨"111111111111", some "ACTIVE"⟩]))
        (.last []))
      ((orgTree false).nodes.take 2) ((orgTree false).nodes.drop 3) [] 30 []
      (fun _ => rfl) (orgConn_servesUnits false) (orgConn_servesMembers false)
      orgTree_noListingFails rfl (by decide) (by decide)
      (fun m => List.Perm.refl m) (by decide)⟩

/-- No unit of the unbroken example organization lists the account `999999999999`. -/
theorem orgConn_lists_no_stranger :
    ∀ unit ∈ (⟨"r-root", "Root"⟩ : OrganizationalUnit)
        :: [⟨"ou-a", "a"⟩, ⟨"ou-a1", "a1"⟩, ⟨"ou-b", "b"⟩, ⟨"ou-b1", "b1"⟩, ⟨"ou-c", "c"⟩],
      ∃ ps : Pages Account, ServesAccountPages (orgConn false) unit.Id none ps
        ∧ ps.failure = none ∧ "999999999999" ∉ ps.items.map Account.Id := by
  intro unit hunit
  simp only [List.mem_cons, List.mem_singleton, List.not_mem_nil, or_false] at hunit
  rcases hunit with h | h | h | h | h | h <;> subst h
  · exact ⟨.last [], fun _ => rfl, rfl, by decide⟩
  · exact ⟨.last [], fun _ => rfl, rfl, by decide⟩
  · exact ⟨.more [⟨"222222222222", some "ACTIVE"⟩] "members-2"
      (.last [⟨"111111111111", some "ACTIVE"⟩]), ⟨fun _ => rfl, fun _ => rfl⟩, rfl, by decide⟩
  · exact ⟨.last [], fun _ => rfl, rfl, by decide⟩
  · exact ⟨.last [], fun _ => rfl, rfl, by decide⟩
  · exact ⟨.last [⟨"333333333333", some "ACTIVE"⟩], fun _ => rfl, rfl, by decide⟩

theorem findAccountOrganizationalUnit_not_found_witness :
    (∃ M, ∀ fuel, M ≤ fuel → ∀ tr,
      (findAccountOrganizationalUnit (orgConn false) List.reverse "999999999999" fuel tr).1
        = .returned ("", "", Errorf ("no OU found for account " ++ "999999999999" ++ ".")))
    ∧ ((("ou-a1", "a1", []) : String × String × Diagnostics).2.2 = []
      ∧ ∃ pre tok status,
          (findAccountOrganizationalUnit (orgConn false) List.reverse "111111111111" 30 []).2
            = [] ++ pre ++ [Event.listAccountsForParent
                (("ou-a1", "a1", []) : String × String × Diagnostics).1 tok (.ok status)]
          ∧ (orgConn false).ListAccountsForParent ([] ++ pre)
                (("ou-a1", "a1", []) : String × String × Diagnostics).1 tok = .ok status
          ∧ "111111111111" ∈ status.Accounts.map Account.Id)
    ∧ (findAccountOrganizationalUnit brokenListConn List.reverse "999999999999" 30 []).1
        = .returned ("", "",
            Errorf "error reading accounts under OU ou-root-ccc: request timed out") :=
  ⟨(findAccountOrganizationalUnit_not_found (orgConn false) List.reverse "999999999999").1
      ⟨"r-root", "Root"⟩ []
      [⟨"ou-a", "a"⟩, ⟨"ou-a1", "a1"⟩, ⟨"ou-b", "b"⟩, ⟨"ou-b1", "b1"⟩, ⟨"ou-c", "c"⟩] 20
      (fun _ => rfl)
      (fun fuel hfuel tr =>
        getOrganizationalUnitsRecursive_served (orgConn false) fuel (orgTree false) tr
          (le_trans (by decide) hfuel) (orgConn_servesUnits false))
      orgConn_lists_no_stranger (fun m => List.reverse_perm m),
    (findAccountOrganizationalUnit_not_found (orgConn false) List.reverse
      "111111111111").2.2.1 30 [] ("ou-a1", "a1", [])
      (findAccountOrganizationalUnit (orgConn false) List.reverse "111111111111" 30 []).2
      (by decide) (by decide),
    by decide⟩

end ControlTower
